import Mathlib

/-!
Verification of the someip-rs SOME/IP protocol library core.

The Rust sources are shallowly embedded: bytes are natural numbers, byte
buffers are `List Nat`, machine-integer overflow is made explicit with
`% 2 ^ w`, and fallible functions return `Except`.  Stateful components
(the TP reassembler, the SD client cache, the connection pool) are
modelled as explicit state-passing functions.  Error message strings
carried by the Rust error enum are dropped; only the variant and its
numeric fields are kept.
-/

set_option maxHeartbeats 1000000

namespace SomeIpRs

/-- Bytes are natural numbers; callers keep them below 256. -/
abbrev Byte := Nat

/-- Big-endian read of two bytes, as in `u16::from_be_bytes`. -/
def u16be (a b : Nat) : Nat := a * 256 + b

/-- Big-endian read of four bytes, as in `u32::from_be_bytes`. -/
def u32be (a b c d : Nat) : Nat := ((a * 256 + b) * 256 + c) * 256 + d

/-- Big-endian encoding of a `u16` value, as in `u16::to_be_bytes`. -/
def u16bytes (v : Nat) : List Byte := [v / 256 % 256, v % 256]

/-- Big-endian encoding of a `u32` value, as in `u32::to_be_bytes`. -/
def u32bytes (v : Nat) : List Byte :=
  [v / 2 ^ 24 % 256, v / 2 ^ 16 % 256, v / 2 ^ 8 % 256, v % 256]

/-- Byte at index `i` of a buffer; the default `0` is never reached because
every read in the source sits behind a length check. -/
def byteAt (l : List Byte) (i : Nat) : Byte := l.getD i 0

theorem u16be_u16bytes (v : Nat) (h : v < 65536) :
    u16be (byteAt (u16bytes v) 0) (byteAt (u16bytes v) 1) = v := by
  show v / 256 % 256 * 256 + v % 256 = v
  omega

theorem u32be_u32bytes (v : Nat) (h : v < 2 ^ 32) :
    u32be (byteAt (u32bytes v) 0) (byteAt (u32bytes v) 1)
      (byteAt (u32bytes v) 2) (byteAt (u32bytes v) 3) = v := by
  show ((v / 2 ^ 24 % 256 * 256 + v / 2 ^ 16 % 256) * 256 + v / 2 ^ 8 % 256) * 256
      + v % 256 = v
  omega

/-- The ten SOME/IP message types of `src/types.rs`. -/
inductive MessageType
  | Request
  | RequestNoReturn
  | Notification
  | Response
  | Error
  | TpRequest
  | TpRequestNoReturn
  | TpNotification
  | TpResponse
  | TpError
deriving DecidableEq, Repr

namespace MessageType

/-- Numeric value of each message type (`#[repr(u8)]` discriminants). -/
def toU8 : MessageType → Nat
  | .Request => 0x00
  | .RequestNoReturn => 0x01
  | .Notification => 0x02
  | .Response => 0x80
  | .Error => 0x81
  | .TpRequest => 0x20
  | .TpRequestNoReturn => 0x21
  | .TpNotification => 0x22
  | .TpResponse => 0xA0
  | .TpError => 0xA1

/-- `MessageType::from_u8`. -/
def fromU8 : Nat → Option MessageType
  | 0x00 => some .Request
  | 0x01 => some .RequestNoReturn
  | 0x02 => some .Notification
  | 0x80 => some .Response
  | 0x81 => some .Error
  | 0x20 => some .TpRequest
  | 0x21 => some .TpRequestNoReturn
  | 0x22 => some .TpNotification
  | 0xA0 => some .TpResponse
  | 0xA1 => some .TpError
  | _ => none

/-- `MessageType::expects_response`. -/
def expectsResponse : MessageType → Bool
  | .Request | .TpRequest => true
  | _ => false

/-- `MessageType::is_response`. -/
def isResponse : MessageType → Bool
  | .Response | .Error | .TpResponse | .TpError => true
  | _ => false

/-- `MessageType::is_tp`. -/
def isTp : MessageType → Bool
  | .TpRequest | .TpRequestNoReturn | .TpNotification | .TpResponse | .TpError => true
  | _ => false

/-- Modelled from the spec: `MessageType::to_tp` is used by the TP segmenter
but its definition is not among the provided sources.  Per the spec, a TP
variant shares the low seven bits with its base type and `to_tp` sets the
segmented bit 0x20, so each of the five base types maps to its TP variant
and a TP variant is left unchanged.  The `Option` shape matches the call
site `message_type.to_tp().unwrap_or(MessageType::TpRequest)`. -/
def toTp : MessageType → Option MessageType
  | .Request => some .TpRequest
  | .RequestNoReturn => some .TpRequestNoReturn
  | .Notification => some .TpNotification
  | .Response => some .TpResponse
  | .Error => some .TpError
  | t => some t

/-- Modelled from the spec: `MessageType::to_base` is used by the TP
reassembler but its definition is not among the provided sources.  Per the
spec it clears the segmented bit 0x20, mapping each TP variant to its base
type and leaving base types unchanged. -/
def toBase : MessageType → MessageType
  | .TpRequest => .Request
  | .TpRequestNoReturn => .RequestNoReturn
  | .TpNotification => .Notification
  | .TpResponse => .Response
  | .TpError => .Error
  | t => t

theorem fromU8_toU8_messageType (t : MessageType) : fromU8 t.toU8 = some t := by
  cases t <;> rfl

end MessageType

/-- The sixteen SOME/IP return codes of `src/types.rs`. -/
inductive ReturnCode
  | Ok
  | NotOk
  | UnknownService
  | UnknownMethod
  | NotReady
  | NotReachable
  | Timeout
  | WrongProtocolVersion
  | WrongInterfaceVersion
  | MalformedMessage
  | WrongMessageType
  | E2ERepeated
  | E2EWrongSequence
  | E2E
  | E2ENotAvailable
  | E2ENoNewData
deriving DecidableEq, Repr

namespace ReturnCode

/-- Numeric value of each return code (`#[repr(u8)]` discriminants). -/
def toU8 : ReturnCode → Nat
  | .Ok => 0x00
  | .NotOk => 0x01
  | .UnknownService => 0x02
  | .UnknownMethod => 0x03
  | .NotReady => 0x04
  | .NotReachable => 0x05
  | .Timeout => 0x06
  | .WrongProtocolVersion => 0x07
  | .WrongInterfaceVersion => 0x08
  | .MalformedMessage => 0x09
  | .WrongMessageType => 0x0A
  | .E2ERepeated => 0x0B
  | .E2EWrongSequence => 0x0C
  | .E2E => 0x0D
  | .E2ENotAvailable => 0x0E
  | .E2ENoNewData => 0x0F

/-- `ReturnCode::from_u8`. -/
def fromU8 : Nat → Option ReturnCode
  | 0x00 => some .Ok
  | 0x01 => some .NotOk
  | 0x02 => some .UnknownService
  | 0x03 => some .UnknownMethod
  | 0x04 => some .NotReady
  | 0x05 => some .NotReachable
  | 0x06 => some .Timeout
  | 0x07 => some .WrongProtocolVersion
  | 0x08 => some .WrongInterfaceVersion
  | 0x09 => some .MalformedMessage
  | 0x0A => some .WrongMessageType
  | 0x0B => some .E2ERepeated
  | 0x0C => some .E2EWrongSequence
  | 0x0D => some .E2E
  | 0x0E => some .E2ENotAvailable
  | 0x0F => some .E2ENoNewData
  | _ => none

theorem fromU8_toU8_returnCode (c : ReturnCode) : fromU8 c.toU8 = some c := by
  cases c <;> rfl

end ReturnCode

/-- The error enum of `src/error.rs`.  The `String` payloads carried by
`Io` and `InvalidHeader` in the source are dropped in this embedding; the
numeric fields are kept. -/
inductive SomeIpError
  | ioError
  | invalidHeader
  | unknownMessageType (b : Nat)
  | unknownReturnCode (b : Nat)
  | wrongProtocolVersion (b : Nat)
  | messageTooShort (expected actual : Nat)
  | lengthMismatch (headerLength actualLength : Nat)
  | payloadTooLarge (size maxSize : Nat)
  | protocolError (code : ReturnCode)
  | connectionClosed
  | timedOut
  | noResponse (clientId sessionId : Nat)
deriving DecidableEq, Repr

/-- The 16-byte SOME/IP header of `src/header.rs`.  The four ID newtypes
(`ServiceId`, `MethodId`, `ClientId`, `SessionId`) are carried as their
underlying 16-bit values. -/
structure SomeIpHeader where
  serviceId : Nat
  methodId : Nat
  length : Nat
  clientId : Nat
  sessionId : Nat
  protocolVersion : Nat
  interfaceVersion : Nat
  messageType : MessageType
  returnCode : ReturnCode
deriving DecidableEq, Repr

namespace SomeIpHeader

/-- Width invariants that the Rust field types (`u16`, `u32`, `u8`)
guarantee for every representable header value. -/
def wf (h : SomeIpHeader) : Prop :=
  h.serviceId < 65536 ∧ h.methodId < 65536 ∧ h.length < 2 ^ 32 ∧
    h.clientId < 65536 ∧ h.sessionId < 65536 ∧
    h.protocolVersion < 256 ∧ h.interfaceVersion < 256

instance (h : SomeIpHeader) : Decidable h.wf := by
  unfold wf; infer_instance

/-- `SomeIpHeader::payload_length`: `length.saturating_sub(8)`, which is
exactly truncated subtraction on `Nat`. -/
def payloadLength (h : SomeIpHeader) : Nat := h.length - 8

/-- `SomeIpHeader::from_bytes`. -/
def fromBytes (data : List Byte) : Except SomeIpError SomeIpHeader :=
  if data.length < 16 then
    .error (.messageTooShort 16 data.length)
  else
    let protocolVersion := byteAt data 12
    if protocolVersion ≠ 1 then
      .error (.wrongProtocolVersion protocolVersion)
    else
      match MessageType.fromU8 (byteAt data 14) with
      | none => .error (.unknownMessageType (byteAt data 14))
      | some messageType =>
        match ReturnCode.fromU8 (byteAt data 15) with
        | none => .error (.unknownReturnCode (byteAt data 15))
        | some returnCode =>
          .ok { serviceId := u16be (byteAt data 0) (byteAt data 1)
                methodId := u16be (byteAt data 2) (byteAt data 3)
                length := u32be (byteAt data 4) (byteAt data 5)
                  (byteAt data 6) (byteAt data 7)
                clientId := u16be (byteAt data 8) (byteAt data 9)
                sessionId := u16be (byteAt data 10) (byteAt data 11)
                protocolVersion := protocolVersion
                interfaceVersion := byteAt data 13
                messageType := messageType
                returnCode := returnCode }

/-- `SomeIpHeader::to_bytes`.  The source writes the exact `u16`/`u32`
values; the `% 256` reductions of the encoders are the identity under
`wf`. -/
def toBytes (h : SomeIpHeader) : List Byte :=
  u16bytes h.serviceId ++ u16bytes h.methodId ++ u32bytes h.length ++
    u16bytes h.clientId ++ u16bytes h.sessionId ++
    [h.protocolVersion % 256, h.interfaceVersion % 256,
      h.messageType.toU8, h.returnCode.toU8]

theorem toBytes_length_header (h : SomeIpHeader) : h.toBytes.length = 16 := by
  simp [toBytes, u16bytes, u32bytes]

end SomeIpHeader

/-- A SOME/IP message of `src/message.rs`: header plus payload bytes. -/
structure SomeIpMessage where
  header : SomeIpHeader
  payload : List Byte
deriving DecidableEq, Repr

namespace SomeIpMessage

/-- `SomeIpMessage::new`: stores the payload and rewrites the header length
to `payload.len() as u32 + 8` (the cast and the `u32` addition reduce
modulo `2 ^ 32`). -/
def new (header : SomeIpHeader) (payload : List Byte) : SomeIpMessage :=
  { header := { header with length := (payload.length % 2 ^ 32 + 8) % 2 ^ 32 }
    payload := payload }

/-- `SomeIpMessage::from_bytes`; the `?` on the header decode is
`Except.bind`. -/
def fromBytes (data : List Byte) : Except SomeIpError SomeIpMessage :=
  if data.length < 16 then
    .error (.messageTooShort 16 data.length)
  else
    Except.bind (SomeIpHeader.fromBytes data) fun header =>
      if data.length < 16 + header.payloadLength then
        .error (.lengthMismatch header.length (data.length - 8))
      else
        .ok { header := header
              payload := (data.drop 16).take header.payloadLength }

/-- `SomeIpMessage::to_bytes`. -/
def toBytes (m : SomeIpMessage) : List Byte := m.header.toBytes ++ m.payload

end SomeIpMessage

/-- The message builder of `src/message.rs` (the fields an application can
set before `build()`). -/
structure MessageBuilder where
  serviceId : Nat
  methodId : Nat
  clientId : Nat
  sessionId : Nat
  interfaceVersion : Nat
  messageType : MessageType
  returnCode : ReturnCode
  payload : List Byte
deriving Repr

/-- `MessageBuilder::build`: stamps protocol version 1 and derives the
length field as `8 + payload.len() as u32`. -/
def MessageBuilder.build (b : MessageBuilder) : SomeIpMessage :=
  { header := { serviceId := b.serviceId
                methodId := b.methodId
                length := (8 + b.payload.length % 2 ^ 32) % 2 ^ 32
                clientId := b.clientId
                sessionId := b.sessionId
                protocolVersion := 1
                interfaceVersion := b.interfaceVersion
                messageType := b.messageType
                returnCode := b.returnCode }
    payload := b.payload }

/-- One read of `ManagedTcpClient::next_session_id` (src/connection/managed_tcp.rs).
The `AtomicU16` counter is modelled sequentially as a natural number below
`2 ^ 16`; `fetch_add` wraps, and a fetched zero is replaced by storing 2 and
returning 1.  Returns the produced session id and the new counter value. -/
def nextSessionId (counter : Nat) : Nat × Nat :=
  if counter = 0 then (1, 2) else (counter, (counter + 1) % 65536)

/-- The ids produced by `n` consecutive reads of the session counter
starting from counter value `c`. -/
def sessionSeq : Nat → Nat → List Nat
  | _, 0 => []
  | c, n + 1 =>
    let r := nextSessionId c
    r.1 :: sessionSeq r.2 n

/-- The 4-byte TP header of src/tp/header.rs: a 28-bit offset counted in
16-byte units and the more-segments flag. -/
structure TpHeader where
  offset : Nat
  more : Bool
deriving DecidableEq, Repr

namespace TpHeader

/-- `TpHeader::from_byte_offset`: divides the byte offset by 16. -/
def fromByteOffset (byteOffset : Nat) (more : Bool) : TpHeader :=
  { offset := byteOffset / 16, more := more }

/-- `TpHeader::byte_offset`: the unit offset times 16. -/
def byteOffset (h : TpHeader) : Nat := h.offset * 16

end TpHeader

/-- A TP segment of src/tp/segment.rs: SOME/IP header (with TP message
type), TP header, and the carried slice of the original payload. -/
structure TpSegment where
  header : SomeIpHeader
  tpHeader : TpHeader
  payload : List Byte
deriving DecidableEq, Repr

/-- The body of the `while offset < payload.len()` loop of
`segment_message`.  The Rust loop terminates exactly when
`max_segment_payload >= 1` (each iteration then advances the offset by at
least one byte); `fuel` bounds the iteration count and the caller passes
enough of it to cover every terminating run. -/
def segmentLoop (msg : SomeIpMessage) (maxSegmentPayload : Nat) :
    Nat → Nat → List TpSegment
  | 0, _ => []
  | fuel + 1, offset =>
    if offset < msg.payload.length then
      let remaining := msg.payload.length - offset
      let segmentSize := min remaining maxSegmentPayload
      let isLast : Bool := decide (msg.payload.length ≤ offset + segmentSize)
      { header := { msg.header with
          messageType := (msg.header.messageType.toTp).getD .TpRequest
          length := (8 + 4 + segmentSize % 2 ^ 32) % 2 ^ 32 }
        tpHeader := TpHeader.fromByteOffset offset (!isLast)
        payload := (msg.payload.drop offset).take segmentSize } ::
        segmentLoop msg maxSegmentPayload fuel (offset + segmentSize)
    else []

/-- `segment_message` of src/tp/segment.rs: returns an empty list when the
payload fits in one segment, otherwise splits the payload into segments of
at most `max_segment_payload` bytes. -/
def segment_message (msg : SomeIpMessage) (maxSegmentPayload : Nat) :
    List TpSegment :=
  if msg.payload.length ≤ maxSegmentPayload then []
  else segmentLoop msg maxSegmentPayload (msg.payload.length + 1) 0

/-- Closed form of the segment the loop produces at chunk index `i`
(byte offset `i * S`); used to state and prove the loop characterization. -/
def segAt (msg : SomeIpMessage) (maxSegmentPayload i : Nat) : TpSegment :=
  let size := min (msg.payload.length - i * maxSegmentPayload) maxSegmentPayload
  { header := { msg.header with
      messageType := (msg.header.messageType.toTp).getD .TpRequest
      length := (8 + 4 + size % 2 ^ 32) % 2 ^ 32 }
    tpHeader := { offset := i * maxSegmentPayload / 16
                  more := !decide (msg.payload.length ≤ i * maxSegmentPayload + size) }
    payload := (msg.payload.drop (i * maxSegmentPayload)).take size }

/-- Reassembly key of src/tp/reassembly.rs: the service, method, client and
session IDs of a segment header identify one in-flight message. -/
structure ReassemblyKey where
  serviceId : Nat
  methodId : Nat
  clientId : Nat
  sessionId : Nat
deriving DecidableEq, Repr

/-- `ReassemblyKey::from_header`. -/
def ReassemblyKey.fromHeader (h : SomeIpHeader) : ReassemblyKey :=
  { serviceId := h.serviceId
    methodId := h.methodId
    clientId := h.clientId
    sessionId := h.sessionId }

/-- Insertion into the `BTreeMap<u32, Bytes>` of segment payloads keyed by
unit offset, modelled as an association list sorted by strictly increasing
key; inserting an existing key overwrites the stored bytes. -/
def insertSorted (k : Nat) (v : List Byte) :
    List (Nat × List Byte) → List (Nat × List Byte)
  | [] => [(k, v)]
  | (k2, v2) :: rest =>
    if k < k2 then (k, v) :: (k2, v2) :: rest
    else if k = k2 then (k, v) :: rest
    else (k2, v2) :: insertSorted k v rest

/-- A reassembly context of src/tp/reassembly.rs: the header captured from
the first segment seen, the sorted offset map, and the total length once
the final segment has arrived.  The `created_at` timestamp only feeds the
timeout GC, which none of the claims exercise, and is omitted. -/
structure ReassemblyContext where
  baseHeader : SomeIpHeader
  segments : List (Nat × List Byte)
  totalLength : Option Nat
deriving DecidableEq, Repr

/-- `ReassemblyContext::new`. -/
def ReassemblyContext.new (h : SomeIpHeader) : ReassemblyContext :=
  { baseHeader := h, segments := [], totalLength := none }

/-- `ReassemblyContext::add_segment`: store the payload under the segment's
unit offset, and on a final segment (more flag clear) record the total
length as the segment's byte offset plus its payload length. -/
def ReassemblyContext.addSegment (ctx : ReassemblyContext) (seg : TpSegment) :
    ReassemblyContext :=
  let ctx2 := { ctx with
    segments := insertSorted seg.tpHeader.offset seg.payload ctx.segments }
  if !seg.tpHeader.more then
    { ctx2 with
      totalLength := some (seg.tpHeader.byteOffset + seg.payload.length) }
  else ctx2

/-- The loop of `ReassemblyContext::is_complete`: walk the sorted map; each
entry must sit at the expected unit offset, which after each segment
becomes `accumulated_bytes / 16`; at the end the accumulated bytes must
reach the total. -/
def completeLoop (total : Nat) : Nat → Nat → List (Nat × List Byte) → Bool
  | _, acc, [] => decide (total ≤ acc)
  | expected, acc, (off, p) :: rest =>
    if off ≠ expected then false
    else completeLoop total ((acc + p.length) / 16) (acc + p.length) rest

/-- `ReassemblyContext::is_complete`. -/
def ReassemblyContext.isComplete (ctx : ReassemblyContext) : Bool :=
  match ctx.totalLength with
  | none => false
  | some total => completeLoop total 0 0 ctx.segments

/-- `ReassemblyContext::assemble`: concatenate the stored segments in
ascending offset order and restore the base (non-TP) message type.  The
source sets `length = 8 + payload.len()` and then calls
`SomeIpMessage::new`, which stamps the identical value again; the model
delegates the stamping to `SomeIpMessage.new`. -/
def ReassemblyContext.assemble (ctx : ReassemblyContext) :
    Except SomeIpError SomeIpMessage :=
  match ctx.totalLength with
  | none => .error .invalidHeader
  | some _ =>
    .ok (SomeIpMessage.new
      { ctx.baseHeader with
        messageType := ctx.baseHeader.messageType.toBase }
      (ctx.segments.map Prod.snd).flatten)

/-- Association-list lookup for the `HashMap<ReassemblyKey, _>` of
contexts. -/
def findCtx (key : ReassemblyKey) :
    List (ReassemblyKey × ReassemblyContext) → Option ReassemblyContext
  | [] => none
  | (k2, c) :: rest => if k2 = key then some c else findCtx key rest

/-- Store a context under a key, replacing an existing entry. -/
def updateCtx (key : ReassemblyKey) (ctx : ReassemblyContext) :
    List (ReassemblyKey × ReassemblyContext) →
      List (ReassemblyKey × ReassemblyContext)
  | [] => [(key, ctx)]
  | (k2, c) :: rest =>
    if k2 = key then (key, ctx) :: rest else (k2, c) :: updateCtx key ctx rest

/-- Delete a context by key. -/
def removeCtx (key : ReassemblyKey)
    (l : List (ReassemblyKey × ReassemblyContext)) :
    List (ReassemblyKey × ReassemblyContext) :=
  l.filter (fun e => e.1 ≠ key)

/-- The reassembler of src/tp/reassembly.rs.  The timeout field only feeds
`cleanup`, which none of the claims exercise, and is omitted. -/
structure TpReassembler where
  contexts : List (ReassemblyKey × ReassemblyContext)
deriving DecidableEq, Repr

/-- A freshly constructed reassembler holds no contexts. -/
def TpReassembler.empty : TpReassembler := ⟨[]⟩

/-- `TpReassembler::feed`: insert the segment into its context (created on
first sight, caching the segment's header), then test completion; on
completion assemble, delete the context, and return the message. -/
def TpReassembler.feed (r : TpReassembler) (seg : TpSegment) :
    TpReassembler × Except SomeIpError (Option SomeIpMessage) :=
  let key := ReassemblyKey.fromHeader seg.header
  let ctx0 := match findCtx key r.contexts with
    | some c => c
    | none => ReassemblyContext.new seg.header
  let ctx := ctx0.addSegment seg
  if ctx.isComplete then
    match ctx.assemble with
    | .ok msg => (⟨removeCtx key r.contexts⟩, .ok (some msg))
    | .error e => (⟨updateCtx key ctx r.contexts⟩, .error e)
  else (⟨updateCtx key ctx r.contexts⟩, .ok none)

/-- Feed a list of segments in order, collecting each result. -/
def TpReassembler.feedAll (r : TpReassembler) :
    List TpSegment →
      TpReassembler × List (Except SomeIpError (Option SomeIpMessage))
  | [] => (r, [])
  | seg :: rest =>
    let step := r.feed seg
    let next := step.1.feedAll rest
    (next.1, step.2 :: next.2)

/-- Number of chunks the segmenter produces for a payload that needs
segmentation. -/
def numChunks (m : SomeIpMessage) (S : Nat) : Nat :=
  (m.payload.length + S - 1) / S

/-- The offset map obtained by inserting the given segments in order. -/
def sortOf (l : List TpSegment) : List (Nat × List Byte) :=
  l.foldl (fun acc s => insertSorted s.tpHeader.offset s.payload acc) []

/-- The message the reassembler is expected to return for an original
message `m`: same payload, message type rewritten to its base form, length
field restamped to `8 + payload length`. -/
def reassembledOf (m : SomeIpMessage) : SomeIpMessage :=
  { header := { m.header with
      messageType := m.header.messageType.toBase
      length := 8 + m.payload.length }
    payload := m.payload }

/-- State invariant of the reassembler after feeding the sublist `fed` of
one segmented message: no context before the first segment; afterwards a
single context for the message key holding the sorted map of the fed
segments, the header of one of the segments, and the total length exactly
when the final chunk has been fed. -/
def reassemblyInv (m : SomeIpMessage) (S : Nat) (fed : List TpSegment)
    (r : TpReassembler) : Prop :=
  (fed = [] ∧ r.contexts = []) ∨
  (fed ≠ [] ∧ ∃ j, j < numChunks m S ∧
    r.contexts = [(ReassemblyKey.fromHeader m.header,
      { baseHeader := (segAt m S j).header
        segments := sortOf fed
        totalLength :=
          if segAt m S (numChunks m S - 1) ∈ fed
          then some m.payload.length else none })])

/-- SD entry types of src/sd/types.rs. -/
inductive EntryType
  | FindService
  | OfferService
  | SubscribeEventgroup
  | SubscribeEventgroupAck
deriving DecidableEq, Repr

namespace EntryType

/-- Numeric value of each entry type (`#[repr(u8)]` discriminants). -/
def toU8 : EntryType → Nat
  | .FindService => 0x00
  | .OfferService => 0x01
  | .SubscribeEventgroup => 0x06
  | .SubscribeEventgroupAck => 0x07

/-- `EntryType::from_u8`. -/
def fromU8 : Nat → Option EntryType
  | 0x00 => some .FindService
  | 0x01 => some .OfferService
  | 0x06 => some .SubscribeEventgroup
  | 0x07 => some .SubscribeEventgroupAck
  | _ => none

/-- `EntryType::is_service_entry`. -/
def isServiceEntry : EntryType → Bool
  | .FindService | .OfferService => true
  | _ => false

/-- `EntryType::is_eventgroup_entry`. -/
def isEventgroupEntry : EntryType → Bool
  | .SubscribeEventgroup | .SubscribeEventgroupAck => true
  | _ => false

end EntryType

/-- SD option types of src/sd/types.rs. -/
inductive OptionType
  | Configuration
  | LoadBalancing
  | IPv4Endpoint
  | IPv6Endpoint
  | IPv4Multicast
  | IPv6Multicast
  | IPv4SdEndpoint
  | IPv6SdEndpoint
deriving DecidableEq, Repr

namespace OptionType

/-- Numeric value of each option type (`#[repr(u8)]` discriminants). -/
def toU8 : OptionType → Nat
  | .Configuration => 0x01
  | .LoadBalancing => 0x02
  | .IPv4Endpoint => 0x04
  | .IPv6Endpoint => 0x06
  | .IPv4Multicast => 0x14
  | .IPv6Multicast => 0x16
  | .IPv4SdEndpoint => 0x24
  | .IPv6SdEndpoint => 0x26

/-- `OptionType::from_u8`. -/
def fromU8 : Nat → Option OptionType
  | 0x01 => some .Configuration
  | 0x02 => some .LoadBalancing
  | 0x04 => some .IPv4Endpoint
  | 0x06 => some .IPv6Endpoint
  | 0x14 => some .IPv4Multicast
  | 0x16 => some .IPv6Multicast
  | 0x24 => some .IPv4SdEndpoint
  | 0x26 => some .IPv6SdEndpoint
  | _ => none

end OptionType

/-- Transport protocol of src/sd/types.rs. -/
inductive TransportProtocol
  | Tcp
  | Udp
deriving DecidableEq, Repr

namespace TransportProtocol

/-- Numeric value (`0x06` = TCP, `0x11` = UDP). -/
def toU8 : TransportProtocol → Nat
  | .Tcp => 0x06
  | .Udp => 0x11

/-- `TransportProtocol::from_u8`. -/
def fromU8 : Nat → Option TransportProtocol
  | 0x06 => some .Tcp
  | 0x11 => some .Udp
  | _ => none

end TransportProtocol

/-- Service entry (FindService / OfferService) of src/sd/entry.rs.  The ID
newtypes are carried as their underlying values. -/
structure ServiceEntry where
  entryType : EntryType
  indexFirstOption : Nat
  indexSecondOption : Nat
  numOptions1 : Nat
  numOptions2 : Nat
  serviceId : Nat
  instanceId : Nat
  majorVersion : Nat
  ttl : Nat
  minorVersion : Nat
deriving DecidableEq, Repr

namespace ServiceEntry

/-- Width invariants guaranteed by the Rust field types plus the entry-kind
restriction the service-entry decoder enforces. -/
def wf (e : ServiceEntry) : Prop :=
  e.entryType.isServiceEntry = true ∧
    e.indexFirstOption < 256 ∧ e.indexSecondOption < 256 ∧
    e.numOptions1 < 16 ∧ e.numOptions2 < 16 ∧
    e.serviceId < 65536 ∧ e.instanceId < 65536 ∧
    e.majorVersion < 256 ∧ e.ttl < 2 ^ 24 ∧ e.minorVersion < 2 ^ 32

instance (e : ServiceEntry) : Decidable e.wf := by
  unfold wf; infer_instance

/-- `ServiceEntry::from_bytes`. -/
def fromBytes (data : List Byte) : Except SomeIpError ServiceEntry :=
  if data.length < 16 then
    .error (.messageTooShort 16 data.length)
  else
    match EntryType.fromU8 (byteAt data 0) with
    | none => .error .invalidHeader
    | some entryType =>
      if !entryType.isServiceEntry then
        .error .invalidHeader
      else
        .ok { entryType := entryType
              indexFirstOption := byteAt data 1
              indexSecondOption := byteAt data 2
              numOptions1 := byteAt data 3 / 16 % 16
              numOptions2 := byteAt data 3 % 16
              serviceId := u16be (byteAt data 4) (byteAt data 5)
              instanceId := u16be (byteAt data 6) (byteAt data 7)
              majorVersion := byteAt data 8
              ttl := u32be 0 (byteAt data 9) (byteAt data 10) (byteAt data 11)
              minorVersion := u32be (byteAt data 12) (byteAt data 13)
                (byteAt data 14) (byteAt data 15) }

/-- `ServiceEntry::to_bytes` (16 bytes). -/
def toBytes (e : ServiceEntry) : List Byte :=
  [e.entryType.toU8, e.indexFirstOption, e.indexSecondOption,
    e.numOptions1 % 16 * 16 + e.numOptions2 % 16] ++
    u16bytes e.serviceId ++ u16bytes e.instanceId ++
    [e.majorVersion, e.ttl / 2 ^ 16 % 256, e.ttl / 2 ^ 8 % 256, e.ttl % 256] ++
    u32bytes e.minorVersion

end ServiceEntry

/-- Eventgroup entry (Subscribe / SubscribeAck) of src/sd/entry.rs. -/
structure EventgroupEntry where
  entryType : EntryType
  indexFirstOption : Nat
  indexSecondOption : Nat
  numOptions1 : Nat
  numOptions2 : Nat
  serviceId : Nat
  instanceId : Nat
  majorVersion : Nat
  ttl : Nat
  counter : Nat
  eventgroupId : Nat
deriving DecidableEq, Repr

namespace EventgroupEntry

/-- Width invariants plus the entry-kind restriction the eventgroup-entry
decoder enforces. -/
def wf (e : EventgroupEntry) : Prop :=
  e.entryType.isEventgroupEntry = true ∧
    e.indexFirstOption < 256 ∧ e.indexSecondOption < 256 ∧
    e.numOptions1 < 16 ∧ e.numOptions2 < 16 ∧
    e.serviceId < 65536 ∧ e.instanceId < 65536 ∧
    e.majorVersion < 256 ∧ e.ttl < 2 ^ 24 ∧ e.counter < 16 ∧
    e.eventgroupId < 65536

instance (e : EventgroupEntry) : Decidable e.wf := by
  unfold wf; infer_instance

/-- `EventgroupEntry::from_bytes`. -/
def fromBytes (data : List Byte) : Except SomeIpError EventgroupEntry :=
  if data.length < 16 then
    .error (.messageTooShort 16 data.length)
  else
    match EntryType.fromU8 (byteAt data 0) with
    | none => .error .invalidHeader
    | some entryType =>
      if !entryType.isEventgroupEntry then
        .error .invalidHeader
      else
        .ok { entryType := entryType
              indexFirstOption := byteAt data 1
              indexSecondOption := byteAt data 2
              numOptions1 := byteAt data 3 / 16 % 16
              numOptions2 := byteAt data 3 % 16
              serviceId := u16be (byteAt data 4) (byteAt data 5)
              instanceId := u16be (byteAt data 6) (byteAt data 7)
              majorVersion := byteAt data 8
              ttl := u32be 0 (byteAt data 9) (byteAt data 10) (byteAt data 11)
              counter := byteAt data 12 % 16
              eventgroupId := u16be (byteAt data 14) (byteAt data 15) }

/-- `EventgroupEntry::to_bytes` (16 bytes). -/
def toBytes (e : EventgroupEntry) : List Byte :=
  [e.entryType.toU8, e.indexFirstOption, e.indexSecondOption,
    e.numOptions1 % 16 * 16 + e.numOptions2 % 16] ++
    u16bytes e.serviceId ++ u16bytes e.instanceId ++
    [e.majorVersion, e.ttl / 2 ^ 16 % 256, e.ttl / 2 ^ 8 % 256, e.ttl % 256,
      e.counter % 16, 0] ++
    u16bytes e.eventgroupId

end EventgroupEntry

/-- An SD entry of src/sd/entry.rs. -/
inductive SdEntry
  | Service (e : ServiceEntry)
  | Eventgroup (e : EventgroupEntry)
deriving DecidableEq, Repr

namespace SdEntry

/-- Wellformedness of the wrapped entry. -/
def wf : SdEntry → Prop
  | .Service e => e.wf
  | .Eventgroup e => e.wf

instance (e : SdEntry) : Decidable e.wf := by
  cases e <;> (unfold wf; infer_instance)

/-- `SdEntry::from_bytes`: dispatch on the entry-type byte. -/
def fromBytes (data : List Byte) : Except SomeIpError SdEntry :=
  if data.length = 0 then
    .error (.messageTooShort 1 0)
  else
    match EntryType.fromU8 (byteAt data 0) with
    | some t =>
      if t.isServiceEntry then
        Except.bind (ServiceEntry.fromBytes data) fun e => .ok (SdEntry.Service e)
      else if t.isEventgroupEntry then
        Except.bind (EventgroupEntry.fromBytes data) fun e =>
          .ok (SdEntry.Eventgroup e)
      else
        .error .invalidHeader
    | none => .error .invalidHeader

/-- `SdEntry::to_bytes`. -/
def toBytes : SdEntry → List Byte
  | .Service e => e.toBytes
  | .Eventgroup e => e.toBytes

/-- Option-run indices `(index1, count1, index2, count2)` of an entry. -/
def optionRuns : SdEntry → Nat × Nat × Nat × Nat
  | .Service e =>
    (e.indexFirstOption, e.numOptions1, e.indexSecondOption, e.numOptions2)
  | .Eventgroup e =>
    (e.indexFirstOption, e.numOptions1, e.indexSecondOption, e.numOptions2)

end SdEntry

/-- IPv4 endpoint/multicast option payload of src/sd/option.rs; the four
address octets are carried separately. -/
structure IPv4EndpointOption where
  a0 : Nat
  a1 : Nat
  a2 : Nat
  a3 : Nat
  protocol : TransportProtocol
  port : Nat
deriving DecidableEq, Repr

namespace IPv4EndpointOption

/-- Width invariants of the Rust field types. -/
def wf (o : IPv4EndpointOption) : Prop :=
  o.a0 < 256 ∧ o.a1 < 256 ∧ o.a2 < 256 ∧ o.a3 < 256 ∧ o.port < 65536

instance (o : IPv4EndpointOption) : Decidable o.wf := by
  unfold wf; infer_instance

/-- `IPv4EndpointOption::from_bytes` (option payload, header excluded). -/
def fromBytes (data : List Byte) : Except SomeIpError IPv4EndpointOption :=
  if data.length < 9 then
    .error (.messageTooShort 9 data.length)
  else
    match TransportProtocol.fromU8 (byteAt data 5) with
    | none => .error .invalidHeader
    | some protocol =>
      .ok { a0 := byteAt data 0, a1 := byteAt data 1
            a2 := byteAt data 2, a3 := byteAt data 3
            protocol := protocol
            port := u16be (byteAt data 6) (byteAt data 7) }

/-- `IPv4EndpointOption::to_bytes` (9 bytes incl. trailing padding). -/
def toBytes (o : IPv4EndpointOption) : List Byte :=
  [o.a0, o.a1, o.a2, o.a3, 0, o.protocol.toU8] ++ u16bytes o.port ++ [0]

end IPv4EndpointOption

/-- IPv6 endpoint/multicast option payload of src/sd/option.rs; the
sixteen address bytes are carried as a list. -/
structure IPv6EndpointOption where
  address : List Byte
  protocol : TransportProtocol
  port : Nat
deriving DecidableEq, Repr

namespace IPv6EndpointOption

/-- Width invariants of the Rust field types. -/
def wf (o : IPv6EndpointOption) : Prop :=
  o.address.length = 16 ∧ o.port < 65536

instance (o : IPv6EndpointOption) : Decidable o.wf := by
  unfold wf; infer_instance

/-- `IPv6EndpointOption::from_bytes` (option payload, header excluded). -/
def fromBytes (data : List Byte) : Except SomeIpError IPv6EndpointOption :=
  if data.length < 21 then
    .error (.messageTooShort 21 data.length)
  else
    match TransportProtocol.fromU8 (byteAt data 17) with
    | none => .error .invalidHeader
    | some protocol =>
      .ok { address := data.take 16
            protocol := protocol
            port := u16be (byteAt data 18) (byteAt data 19) }

/-- `IPv6EndpointOption::to_bytes` (21 bytes incl. trailing padding). -/
def toBytes (o : IPv6EndpointOption) : List Byte :=
  o.address ++ [0, o.protocol.toU8] ++ u16bytes o.port ++ [0]

end IPv6EndpointOption

/-- UTF-8 validity per RFC 3629, as enforced by `String::from_utf8`: no
overlong encodings, no surrogates, nothing above U+10FFFF. -/
def validUtf8 : List Byte → Bool
  | [] => true
  | b :: rest =>
    if b < 0x80 then validUtf8 rest
    else if 0xC2 ≤ b ∧ b ≤ 0xDF then
      match rest with
      | c1 :: r => 0x80 ≤ c1 && c1 ≤ 0xBF && validUtf8 r
      | [] => false
    else if b = 0xE0 then
      match rest with
      | c1 :: c2 :: r =>
        (0xA0 ≤ c1 && c1 ≤ 0xBF) && (0x80 ≤ c2 && c2 ≤ 0xBF) && validUtf8 r
      | _ => false
    else if (0xE1 ≤ b ∧ b ≤ 0xEC) ∨ b = 0xEE ∨ b = 0xEF then
      match rest with
      | c1 :: c2 :: r =>
        (0x80 ≤ c1 && c1 ≤ 0xBF) && (0x80 ≤ c2 && c2 ≤ 0xBF) && validUtf8 r
      | _ => false
    else if b = 0xED then
      match rest with
      | c1 :: c2 :: r =>
        (0x80 ≤ c1 && c1 ≤ 0x9F) && (0x80 ≤ c2 && c2 ≤ 0xBF) && validUtf8 r
      | _ => false
    else if b = 0xF0 then
      match rest with
      | c1 :: c2 :: c3 :: r =>
        (0x90 ≤ c1 && c1 ≤ 0xBF) && (0x80 ≤ c2 && c2 ≤ 0xBF) &&
          (0x80 ≤ c3 && c3 ≤ 0xBF) && validUtf8 r
      | _ => false
    else if 0xF1 ≤ b ∧ b ≤ 0xF3 then
      match rest with
      | c1 :: c2 :: c3 :: r =>
        (0x80 ≤ c1 && c1 ≤ 0xBF) && (0x80 ≤ c2 && c2 ≤ 0xBF) &&
          (0x80 ≤ c3 && c3 ≤ 0xBF) && validUtf8 r
      | _ => false
    else if b = 0xF4 then
      match rest with
      | c1 :: c2 :: c3 :: r =>
        (0x80 ≤ c1 && c1 ≤ 0x8F) && (0x80 ≤ c2 && c2 ≤ 0xBF) &&
          (0x80 ≤ c3 && c3 ≤ 0xBF) && validUtf8 r
      | _ => false
    else false

/-- Configuration option of src/sd/option.rs; the Rust `String` is carried
as its UTF-8 bytes. -/
structure ConfigurationOption where
  configBytes : List Byte
deriving DecidableEq, Repr

namespace ConfigurationOption

/-- The Rust `String` type guarantees valid UTF-8. -/
def wf (o : ConfigurationOption) : Prop := validUtf8 o.configBytes = true

instance (o : ConfigurationOption) : Decidable o.wf := by
  unfold wf; infer_instance

/-- `ConfigurationOption::from_bytes`: a UTF-8 validity check. -/
def fromBytes (data : List Byte) : Except SomeIpError ConfigurationOption :=
  if validUtf8 data then .ok { configBytes := data }
  else .error .invalidHeader

/-- `ConfigurationOption::to_bytes`. -/
def toBytes (o : ConfigurationOption) : List Byte := o.configBytes

end ConfigurationOption

/-- An SD option of src/sd/option.rs. -/
inductive SdOption
  | IPv4Endpoint (o : IPv4EndpointOption)
  | IPv6Endpoint (o : IPv6EndpointOption)
  | IPv4Multicast (o : IPv4EndpointOption)
  | IPv6Multicast (o : IPv6EndpointOption)
  | Configuration (o : ConfigurationOption)
  | Unknown (optionType : Nat) (data : List Byte)
deriving DecidableEq, Repr

namespace SdOption

/-- `SdOption::to_bytes` (header included).  The `u16` length cast reduces
modulo `2 ^ 16`, which `u16bytes` already performs. -/
def toBytes : SdOption → List Byte
  | .IPv4Endpoint o =>
    u16bytes o.toBytes.length ++ [OptionType.IPv4Endpoint.toU8, 0] ++ o.toBytes
  | .IPv6Endpoint o =>
    u16bytes o.toBytes.length ++ [OptionType.IPv6Endpoint.toU8, 0] ++ o.toBytes
  | .IPv4Multicast o =>
    u16bytes o.toBytes.length ++ [OptionType.IPv4Multicast.toU8, 0] ++ o.toBytes
  | .IPv6Multicast o =>
    u16bytes o.toBytes.length ++ [OptionType.IPv6Multicast.toU8, 0] ++ o.toBytes
  | .Configuration o =>
    u16bytes o.toBytes.length ++ [OptionType.Configuration.toU8, 0] ++ o.toBytes
  | .Unknown ty data => u16bytes data.length ++ [ty % 256, 0] ++ data

/-- `SdOption::from_bytes` (header included); returns the option and its
total wire size. -/
def fromBytes (data : List Byte) : Except SomeIpError (SdOption × Nat) :=
  if data.length < 4 then
    .error (.messageTooShort 4 data.length)
  else
    let length := u16be (byteAt data 0) (byteAt data 1)
    let optionTypeByte := byteAt data 2
    let totalSize := 4 + length
    if data.length < totalSize then
      .error (.messageTooShort totalSize data.length)
    else
      let optionData := (data.drop 4).take length
      match OptionType.fromU8 optionTypeByte with
      | some .IPv4Endpoint =>
        Except.bind (IPv4EndpointOption.fromBytes optionData) fun o =>
          .ok (SdOption.IPv4Endpoint o, totalSize)
      | some .IPv6Endpoint =>
        Except.bind (IPv6EndpointOption.fromBytes optionData) fun o =>
          .ok (SdOption.IPv6Endpoint o, totalSize)
      | some .IPv4Multicast =>
        Except.bind (IPv4EndpointOption.fromBytes optionData) fun o =>
          .ok (SdOption.IPv4Multicast o, totalSize)
      | some .IPv6Multicast =>
        Except.bind (IPv6EndpointOption.fromBytes optionData) fun o =>
          .ok (SdOption.IPv6Multicast o, totalSize)
      | some .Configuration =>
        Except.bind (ConfigurationOption.fromBytes optionData) fun o =>
          .ok (SdOption.Configuration o, totalSize)
      | _ => .ok (SdOption.Unknown optionTypeByte optionData, totalSize)

/-- Wellformedness: wrapped payloads are wellformed, payload sizes fit the
16-bit length field, and an `Unknown` option really carries one of the
types the decoder does not interpret. -/
def wf : SdOption → Prop
  | .IPv4Endpoint o => o.wf
  | .IPv6Endpoint o => o.wf
  | .IPv4Multicast o => o.wf
  | .IPv6Multicast o => o.wf
  | .Configuration o => o.wf ∧ o.configBytes.length < 65536
  | .Unknown ty data => ty < 256 ∧ data.length < 65536 ∧
      (OptionType.fromU8 ty = none ∨
        OptionType.fromU8 ty = some .LoadBalancing ∨
        OptionType.fromU8 ty = some .IPv4SdEndpoint ∨
        OptionType.fromU8 ty = some .IPv6SdEndpoint)

instance (o : SdOption) : Decidable o.wf := by
  cases o <;> (unfold wf; infer_instance)

end SdOption

/-- SD message flags of src/sd/message.rs. -/
structure SdFlags where
  reboot : Bool
  unicast : Bool
  explicitInitialData : Bool
deriving DecidableEq, Repr

namespace SdFlags

/-- `SdFlags::from_u8`: tests of bits 7, 6, 5. -/
def fromU8 (b : Nat) : SdFlags :=
  { reboot := b / 128 % 2 = 1
    unicast := b / 64 % 2 = 1
    explicitInitialData := b / 32 % 2 = 1 }

/-- `SdFlags::to_u8`: ORs of bits 7, 6, 5 (disjoint, so addition). -/
def toU8 (f : SdFlags) : Nat :=
  (if f.reboot then 128 else 0) + (if f.unicast then 64 else 0) +
    (if f.explicitInitialData then 32 else 0)

end SdFlags

/-- The SD message envelope of src/sd/message.rs. -/
structure SdMessage where
  flags : SdFlags
  entries : List SdEntry
  options : List SdOption
deriving DecidableEq, Repr

/-- The `while offset + 16 <= entries_data.len()` entry-parsing loop of
`SdMessage::from_bytes`; partial trailing bytes are ignored.  Each
iteration consumes 16 bytes, so `fuel := b.length` covers every run and
the fuel-exhausted branch is unreachable. -/
def parseEntriesLoop : Nat → List Byte → Except SomeIpError (List SdEntry)
  | fuel + 1, b =>
    if 16 ≤ b.length then
      Except.bind (SdEntry.fromBytes b) fun e =>
        Except.bind (parseEntriesLoop fuel (b.drop 16)) fun rest =>
          .ok (e :: rest)
    else .ok []
  | 0, b => if 16 ≤ b.length then .error .invalidHeader else .ok []

/-- The `while opt_offset < options_length` option-parsing loop of
`SdMessage::from_bytes`.  `rem` is the count of option-region bytes still
to cover; each parsed option advances by its wire size (at least 4), so
`fuel := rem` suffices for every run of the source loop and the
fuel-exhausted branch is unreachable. -/
def parseOptionsLoop : Nat → List Byte → Nat → Except SomeIpError (List SdOption)
  | _, _, 0 => .ok []
  | 0, _, _ + 1 => .error .invalidHeader
  | fuel + 1, b, rem + 1 =>
    Except.bind (SdOption.fromBytes b) fun os =>
      Except.bind (parseOptionsLoop fuel (b.drop os.2) (rem + 1 - os.2))
        fun rest => .ok (os.1 :: rest)

namespace SdMessage

/-- Wellformedness: every entry and option is wellformed and the two
region lengths fit their `u32` wire fields. -/
def wf (s : SdMessage) : Prop :=
  (∀ e ∈ s.entries, e.wf) ∧ (∀ o ∈ s.options, o.wf) ∧
    s.entries.length * 16 < 2 ^ 32 ∧
    (s.options.map (fun o => o.toBytes.length)).sum < 2 ^ 32

instance (s : SdMessage) : Decidable s.wf := by
  unfold wf; infer_instance

/-- `SdMessage::from_bytes` (SD payload only). -/
def fromBytes (data : List Byte) : Except SomeIpError SdMessage :=
  if data.length < 12 then
    .error (.messageTooShort 12 data.length)
  else
    let flags := SdFlags.fromU8 (byteAt data 0)
    let entriesLength := u32be (byteAt data 4) (byteAt data 5)
      (byteAt data 6) (byteAt data 7)
    if data.length < 8 + entriesLength + 4 then
      .error (.messageTooShort (8 + entriesLength + 4) data.length)
    else
      Except.bind (parseEntriesLoop entriesLength
          ((data.drop 8).take entriesLength))
        fun entries =>
      let optionsLength := u32be (byteAt data (8 + entriesLength))
        (byteAt data (8 + entriesLength + 1)) (byteAt data (8 + entriesLength + 2))
        (byteAt data (8 + entriesLength + 3))
      let optionsData := data.drop (8 + entriesLength + 4)
      if optionsData.length < optionsLength then
        .error (.messageTooShort optionsLength optionsData.length)
      else
        Except.bind (parseOptionsLoop optionsLength optionsData optionsLength)
          fun options =>
        .ok { flags := flags, entries := entries, options := options }

/-- `SdMessage::to_bytes` (SD payload only). -/
def toBytes (s : SdMessage) : List Byte :=
  [s.flags.toU8, 0, 0, 0] ++ u32bytes (s.entries.length * 16) ++
    (s.entries.map SdEntry.toBytes).flatten ++
    u32bytes ((s.options.map (fun o => o.toBytes.length)).sum) ++
    (s.options.map SdOption.toBytes).flatten

end SdMessage

/-- A concrete SD message exercising both entry kinds and all interpreted
option kinds plus a preserved `Unknown` option, used to evaluate the SD
codec on a closed input. -/
def sdSampleMessage : SdMessage where
  flags := ⟨true, false, true⟩
  entries := [SdEntry.Service
    { entryType := .OfferService, indexFirstOption := 0
      indexSecondOption := 0, numOptions1 := 2, numOptions2 := 0
      serviceId := 0x1234, instanceId := 1, majorVersion := 1
      ttl := 3600, minorVersion := 7 },
    SdEntry.Eventgroup
    { entryType := .SubscribeEventgroupAck, indexFirstOption := 1
      indexSecondOption := 0, numOptions1 := 1, numOptions2 := 0
      serviceId := 2, instanceId := 3, majorVersion := 4
      ttl := 9, counter := 5, eventgroupId := 11 }]
  options := [SdOption.IPv4Endpoint ⟨192, 168, 1, 100, .Tcp, 30490⟩,
    SdOption.Configuration ⟨[104, 105]⟩,
    SdOption.Unknown 0x24 [1, 2, 3],
    SdOption.IPv6Multicast ⟨List.replicate 16 7, .Udp, 99⟩]

/-- A concrete SD message whose only option is an `Unknown` option carrying
the IPv4 endpoint option type byte 0x04; its encoding reparses as an
`IPv4Endpoint` option. -/
def sdUnknownClashMessage : SdMessage where
  flags := ⟨false, false, false⟩
  entries := []
  options := [SdOption.Unknown 4 [192, 168, 1, 100, 0, 6, 119, 42, 0]]

/-- A socket address of src/sd/option.rs `Endpoint`, carried as the raw
address data. -/
inductive EndpointAddr
  | v4 (a0 a1 a2 a3 : Nat) (port : Nat)
  | v6 (address : List Byte) (port : Nat)
deriving DecidableEq, Repr

/-- The `Endpoint` struct of src/sd/option.rs. -/
structure Endpoint where
  address : EndpointAddr
  protocol : TransportProtocol
deriving DecidableEq, Repr

namespace Endpoint

/-- `Endpoint::from_option`: only plain IPv4/IPv6 endpoint options resolve
to an endpoint. -/
def from_option : SdOption → Option Endpoint
  | .IPv4Endpoint o =>
    some { address := .v4 o.a0 o.a1 o.a2 o.a3 o.port, protocol := o.protocol }
  | .IPv6Endpoint o =>
    some { address := .v6 o.address o.port, protocol := o.protocol }
  | _ => none

end Endpoint

namespace SdMessage

/-- `SdMessage::get_options_for_entry`: the two option runs of an entry;
`options.get(i)` misses are skipped. -/
def get_options_for_entry (s : SdMessage) (entry : SdEntry) : List SdOption :=
  let r := entry.optionRuns
  ((List.range r.2.1).filterMap fun k => s.options.get? (r.1 + k)) ++
    ((List.range r.2.2.2).filterMap fun k => s.options.get? (r.2.2.1 + k))

/-- `SdMessage::get_endpoints_for_entry`. -/
def get_endpoints_for_entry (s : SdMessage) (entry : SdEntry) : List Endpoint :=
  (s.get_options_for_entry entry).filterMap Endpoint.from_option

end SdMessage

/-- The `ServiceInfo` cache record of src/sd/client.rs.  `Instant` is
modelled as a natural clock: `expires_at = now + ttl`; the socket source
address is carried as an opaque number. -/
structure ServiceInfo where
  serviceId : Nat
  instanceId : Nat
  majorVersion : Nat
  minorVersion : Nat
  endpoints : List Endpoint
  expiresAt : Nat
  sourceAddr : Nat
deriving DecidableEq, Repr

/-- The `SdEvent` enum of src/sd/client.rs. -/
inductive SdEvent
  | ServiceAvailable (info : ServiceInfo)
  | ServiceUnavailable (serviceId instanceId : Nat)
  | SubscriptionAck (serviceId instanceId eventgroupId : Nat)
      (multicastEndpoint : Option Endpoint)
  | SubscriptionNack (serviceId instanceId eventgroupId : Nat)
deriving DecidableEq, Repr

/-- The SD client's service cache, `BTreeMap<(ServiceId, InstanceId),
ServiceInfo>`, as an association list. -/
abbrev ServiceCache := List ((Nat × Nat) × ServiceInfo)

/-- `self.services.remove(&key)`. -/
def removeService (c : ServiceCache) (key : Nat × Nat) : ServiceCache :=
  c.filter fun kv => decide (kv.1 ≠ key)

/-- `self.services.insert(key, info)` (upsert). -/
def insertService (c : ServiceCache) (key : Nat × Nat) (info : ServiceInfo) :
    ServiceCache :=
  (c.filter fun kv => decide (kv.1 ≠ key)) ++ [(key, info)]

/-- The `for entry in &sd_msg.entries` loop of `SdClient::process_message`:
each early `return Ok(Some(event))` of the source ends the recursion. -/
def processEntries (s : SdMessage) (srcAddr now : Nat) :
    List SdEntry → ServiceCache → ServiceCache × Option SdEvent
  | [], services => (services, none)
  | e :: rest, services =>
    match e with
    | .Service se =>
      match se.entryType with
      | .OfferService =>
        if se.ttl = 0 then
          (removeService services (se.serviceId, se.instanceId),
            some (.ServiceUnavailable se.serviceId se.instanceId))
        else
          let info : ServiceInfo :=
            { serviceId := se.serviceId, instanceId := se.instanceId
              majorVersion := se.majorVersion, minorVersion := se.minorVersion
              endpoints := s.get_endpoints_for_entry (.Service se)
              expiresAt := now + se.ttl, sourceAddr := srcAddr }
          (insertService services (se.serviceId, se.instanceId) info,
            some (.ServiceAvailable info))
      | _ => processEntries s srcAddr now rest services
    | .Eventgroup ge =>
      if ge.entryType = .SubscribeEventgroupAck then
        if ge.ttl = 0 then
          (services, some (.SubscriptionNack ge.serviceId ge.instanceId
            ge.eventgroupId))
        else
          (services, some (.SubscriptionAck ge.serviceId ge.instanceId
            ge.eventgroupId
            (s.get_endpoints_for_entry (.Eventgroup ge)).head?))
      else processEntries s srcAddr now rest services

/-- `SdClient::process_message`: bail out quietly on short datagrams and
parse failures, then run the entry loop on the SD payload after the
16-byte SOME/IP header. -/
def process_message (services : ServiceCache) (data : List Byte)
    (srcAddr now : Nat) : ServiceCache × Option SdEvent :=
  if data.length < 16 then (services, none)
  else
    match SdMessage.fromBytes (data.drop 16) with
    | .error _ => (services, none)
    | .ok sdMsg => processEntries sdMsg srcAddr now sdMsg.entries services

/-- An entry on which the source's entry loop returns early: an
OfferService service entry or a SubscribeEventgroupAck eventgroup entry. -/
def isActionable : SdEntry → Bool
  | .Service se => decide (se.entryType = .OfferService)
  | .Eventgroup ge => decide (ge.entryType = .SubscribeEventgroupAck)

/-- Pool configuration of src/connection/config.rs, the fields
`PoolInner` reads; durations are natural numbers of time units. -/
structure PoolConfig where
  maxConnectionsPerEndpoint : Nat
  idleTimeout : Nat
  maxLifetime : Option Nat
deriving DecidableEq, Repr

/-- A `PoolEntry` of src/connection/pool.rs.  The wrapped `TcpClient` is
opaque and not carried; `Instant` is a natural clock. -/
structure PoolEntry where
  createdAt : Nat
  lastUsed : Nat
  inUse : Bool
deriving DecidableEq, Repr

namespace PoolEntry

/-- `PoolEntry::new`: a fresh entry is not in use. -/
def new (now : Nat) : PoolEntry :=
  { createdAt := now, lastUsed := now, inUse := false }

/-- `PoolEntry::is_expired`: idle timeout, then optional max lifetime. -/
def is_expired (e : PoolEntry) (cfg : PoolConfig) (now : Nat) : Bool :=
  if cfg.idleTimeout < now - e.lastUsed then true
  else
    match cfg.maxLifetime with
    | some m => if m < now - e.createdAt then true else false
    | none => false

end PoolEntry

/-- `PoolInner::get_connection` for one endpoint: retain entries that are
neither in use nor expired, run the source's marking loop over the
retained entries (it sets `in_use = true` on every one of them), then
look for a not-in-use entry to remove and hand out.  Returns the new
entry vector and whether a pooled client was handed out. -/
def get_connection (cfg : PoolConfig) (entries : List PoolEntry) (now : Nat) :
    List PoolEntry × Bool :=
  let entries1 := entries.filter fun e =>
    !e.inUse && !(e.is_expired cfg now)
  let entries2 := entries1.map fun e =>
    if !e.inUse then { e with inUse := true, lastUsed := now } else e
  match entries2.findIdx? (fun e => !e.inUse) with
  | some pos => (entries2.eraseIdx pos, true)
  | none => (entries2, false)

/-- Pool state for one endpoint: the stored entry vector and the count of
checked-out `PooledTcpClient` handles. -/
structure PoolState where
  entries : List PoolEntry
  outstanding : Nat
deriving DecidableEq, Repr

/-- The empty pool. -/
def emptyPoolState : PoolState := { entries := [], outstanding := 0 }

/-- `ConnectionPool::get` for one endpoint: try the pool; on a miss, fail
with the pool-limit error when the stored entry count has reached
`max_connections_per_endpoint`, otherwise connect a fresh client (which is
handed to the caller, not stored).  Returns the new state and whether the
call succeeded. -/
def pool_get (cfg : PoolConfig) (st : PoolState) (now : Nat) :
    PoolState × Bool :=
  if (get_connection cfg st.entries now).2 then
    ({ entries := (get_connection cfg st.entries now).1,
       outstanding := st.outstanding + 1 }, true)
  else if cfg.maxConnectionsPerEndpoint ≤
      (get_connection cfg st.entries now).1.length then
    ({ entries := (get_connection cfg st.entries now).1,
       outstanding := st.outstanding }, false)
  else
    ({ entries := (get_connection cfg st.entries now).1,
       outstanding := st.outstanding + 1 }, true)

/-- `PoolInner::return_connection`, reached from `PooledTcpClient::drop`:
push the client back only while under the limit, else drop it.  A drop can
only happen while a handle is outstanding. -/
def return_connection (cfg : PoolConfig) (st : PoolState) (now : Nat) :
    PoolState :=
  if st.outstanding = 0 then st
  else
    { entries :=
        if st.entries.length < cfg.maxConnectionsPerEndpoint then
          st.entries ++ [PoolEntry.new now]
        else st.entries
      outstanding := st.outstanding - 1 }

/-- One pool operation against the endpoint, at a given clock value. -/
inductive PoolOp
  | get (now : Nat)
  | ret (now : Nat)
deriving DecidableEq, Repr

/-- Run a sequence of pool operations; collects the success flag of every
`get`. -/
def poolRun (cfg : PoolConfig) : List PoolOp → PoolState → PoolState × List Bool
  | [], st => (st, [])
  | .get now :: rest, st =>
    let r := pool_get cfg st now
    let rr := poolRun cfg rest r.1
    (rr.1, r.2 :: rr.2)
  | .ret now :: rest, st => poolRun cfg rest (return_connection cfg st now)

/-! Theorems.  Helper lemmas come first, then the claim theorems with their
witnesses and counterexamples. -/

theorem u16be_split (v : Nat) (h : v < 65536) :
    u16be (v / 256 % 256) (v % 256) = v := by
  unfold u16be; omega

theorem u32be_split (v : Nat) (h : v < 2 ^ 32) :
    u32be (v / 2 ^ 24 % 256) (v / 2 ^ 16 % 256) (v / 2 ^ 8 % 256) (v % 256) = v := by
  unfold u32be; omega

theorem byteAt_append_left (l extra : List Byte) (i : Nat) (h : i < l.length) :
    byteAt (l ++ extra) i = byteAt l i :=
  List.getD_append _ _ _ _ h

theorem except_bind_ok {α β ε : Type} (a : α) (f : α → Except ε β) :
    Except.bind (.ok a) f = f a := rfl

theorem except_bind_error {α β ε : Type} (e : ε) (f : α → Except ε β) :
    Except.bind (.error e) f = (.error e : Except ε β) := rfl

/-- Decoding the encoding of a well-formed header with protocol version 1
succeeds and returns the header, for any trailing bytes. -/
theorem SomeIpHeader.fromBytes_toBytes_append_header (h : SomeIpHeader) (extra : List Byte)
    (hw : h.wf) (hpv : h.protocolVersion = 1) :
    SomeIpHeader.fromBytes (h.toBytes ++ extra) = .ok h := by
  obtain ⟨hs, hm, hl, hc, hsess, hp8, hiv⟩ := hw
  have hblen : h.toBytes.length = 16 := h.toBytes_length_header
  have hlen : ¬ (h.toBytes ++ extra).length < 16 := by
    rw [List.length_append, hblen]; omega
  have hb : ∀ i, i < 16 → byteAt (h.toBytes ++ extra) i = byteAt h.toBytes i := by
    intro i hi
    exact byteAt_append_left _ _ _ (by omega)
  have e0 : byteAt (h.toBytes ++ extra) 0 = h.serviceId / 256 % 256 := hb 0 (by omega)
  have e1 : byteAt (h.toBytes ++ extra) 1 = h.serviceId % 256 := hb 1 (by omega)
  have e2 : byteAt (h.toBytes ++ extra) 2 = h.methodId / 256 % 256 := hb 2 (by omega)
  have e3 : byteAt (h.toBytes ++ extra) 3 = h.methodId % 256 := hb 3 (by omega)
  have e4 : byteAt (h.toBytes ++ extra) 4 = h.length / 2 ^ 24 % 256 := hb 4 (by omega)
  have e5 : byteAt (h.toBytes ++ extra) 5 = h.length / 2 ^ 16 % 256 := hb 5 (by omega)
  have e6 : byteAt (h.toBytes ++ extra) 6 = h.length / 2 ^ 8 % 256 := hb 6 (by omega)
  have e7 : byteAt (h.toBytes ++ extra) 7 = h.length % 256 := hb 7 (by omega)
  have e8 : byteAt (h.toBytes ++ extra) 8 = h.clientId / 256 % 256 := hb 8 (by omega)
  have e9 : byteAt (h.toBytes ++ extra) 9 = h.clientId % 256 := hb 9 (by omega)
  have e10 : byteAt (h.toBytes ++ extra) 10 = h.sessionId / 256 % 256 := hb 10 (by omega)
  have e11 : byteAt (h.toBytes ++ extra) 11 = h.sessionId % 256 := hb 11 (by omega)
  have e12 : byteAt (h.toBytes ++ extra) 12 = 1 := by
    rw [hb 12 (by omega)]
    show h.protocolVersion % 256 = 1
    omega
  have e13 : byteAt (h.toBytes ++ extra) 13 = h.interfaceVersion := by
    rw [hb 13 (by omega)]
    show h.interfaceVersion % 256 = h.interfaceVersion
    omega
  have e14 : byteAt (h.toBytes ++ extra) 14 = h.messageType.toU8 := hb 14 (by omega)
  have e15 : byteAt (h.toBytes ++ extra) 15 = h.returnCode.toU8 := hb 15 (by omega)
  unfold fromBytes
  rw [if_neg hlen]
  simp only [e0, e1, e2, e3, e4, e5, e6, e7, e8, e9, e10, e11, e12, e13, e14, e15,
    u16be_split _ hs, u16be_split _ hm, u32be_split _ hl, u16be_split _ hc,
    u16be_split _ hsess, MessageType.fromU8_toU8_messageType, ReturnCode.fromU8_toU8_returnCode,
    ne_eq, not_true_eq_false, if_false, ite_false]
  exact congrArg Except.ok (by cases h; simp_all)

/-- The session counter never produces id 0 from any counter value: a
fetched 0 is replaced by storing 2 and returning 1, and any other fetched
value is returned as is.  Stated generally over the start value to support
the induction. -/
theorem sessionSeq_length_and_nonzero (c n : Nat) :
    (sessionSeq c n).length = n ∧ ∀ x ∈ sessionSeq c n, x ≠ 0 := by
  induction n generalizing c with
  | zero => simp [sessionSeq]
  | succ k ih =>
    obtain ⟨ihl, ihz⟩ := ih (nextSessionId c).2
    refine ⟨by simpa [sessionSeq] using ihl, ?_⟩
    intro x hx
    rcases List.mem_cons.mp hx with rfl | hx
    · unfold nextSessionId
      split <;> simp_all
    · exact ihz x hx

/-- C8: the managed client's session counter, starting at 1, never yields
session id 0: after N reads the produced sequence has exactly N ids, none
equal to 0; a fetched 0 stores 2 and returns 1; and reading at 0xFFFF
returns 0xFFFF and the following read returns 1 (the counter wraps
0xFFFF to 1, skipping 0). -/
theorem session_counter_never_zero :
    (∀ n, (sessionSeq 1 n).length = n ∧ ∀ x ∈ sessionSeq 1 n, x ≠ 0) ∧
    nextSessionId 0 = (1, 2) ∧ sessionSeq 65535 2 = [65535, 1] :=
  ⟨fun n => sessionSeq_length_and_nonzero 1 n, by decide, by decide⟩

/-- C9: header decoding fails with `MessageTooShort (expected 16)` for every
buffer shorter than 16 bytes, and for every buffer of at least 16 bytes
whose byte at index 12 is not 0x01 it fails with `WrongProtocolVersion`
carrying that byte, regardless of the message-type and return-code bytes. -/
theorem header_decode_errors (data : List Byte) :
    (data.length < 16 →
      SomeIpHeader.fromBytes data = .error (.messageTooShort 16 data.length)) ∧
    (16 ≤ data.length → byteAt data 12 ≠ 1 →
      SomeIpHeader.fromBytes data = .error (.wrongProtocolVersion (byteAt data 12))) := by
  constructor
  · intro hlt
    unfold SomeIpHeader.fromBytes
    rw [if_pos hlt]
  · intro hge hpv
    unfold SomeIpHeader.fromBytes
    rw [if_neg (show ¬ data.length < 16 by omega)]
    exact if_pos hpv

/-- Witness for C9 at two concrete buffers: a 3-byte buffer and a 16-byte
buffer whose protocol-version byte is 0x02. -/
theorem header_decode_errors_witness :
    SomeIpHeader.fromBytes [0, 0, 0] = .error (.messageTooShort 16 3) ∧
    SomeIpHeader.fromBytes [0, 0, 0, 0, 0, 0, 0, 0, 0, 0, 0, 0, 2, 1, 0, 0] =
      .error (.wrongProtocolVersion 2) :=
  ⟨(header_decode_errors [0, 0, 0]).1 (by decide),
   (header_decode_errors [0, 0, 0, 0, 0, 0, 0, 0, 0, 0, 0, 0, 2, 1, 0, 0]).2
     (by decide) (by decide)⟩

/-- C6 (amended): for every message whose header is width-wellformed, has
protocol version 0x01, and carries a length field equal to 8 plus the
payload length, serialization followed by parsing recovers the message
exactly. -/
theorem message_roundtrip_valid (m : SomeIpMessage) (hw : m.header.wf)
    (hpv : m.header.protocolVersion = 1)
    (hlen : m.header.length = 8 + m.payload.length) :
    SomeIpMessage.fromBytes m.toBytes = .ok m := by
  have hhb : SomeIpHeader.fromBytes (m.header.toBytes ++ m.payload) = .ok m.header :=
    SomeIpHeader.fromBytes_toBytes_append_header m.header m.payload hw hpv
  have hplen : m.header.payloadLength = m.payload.length := by
    unfold SomeIpHeader.payloadLength
    omega
  have hblen : m.header.toBytes.length = 16 := m.header.toBytes_length_header
  have htlen : m.toBytes.length = 16 + m.payload.length := by
    rw [SomeIpMessage.toBytes, List.length_append, hblen]
  unfold SomeIpMessage.fromBytes
  rw [show m.toBytes = m.header.toBytes ++ m.payload from rfl] at htlen ⊢
  rw [if_neg (show ¬ (m.header.toBytes ++ m.payload).length < 16 by omega), hhb,
    except_bind_ok,
    if_neg (show ¬ (m.header.toBytes ++ m.payload).length <
      16 + m.header.payloadLength by omega)]
  rw [show (16 : Nat) = m.header.toBytes.length from hblen.symm, List.drop_left,
    hplen, List.take_length]

/-- Witness for C6 at a concrete request message with a 3-byte payload. -/
theorem message_roundtrip_valid_witness :
    SomeIpMessage.fromBytes
        (SomeIpMessage.new ⟨1, 2, 0, 3, 4, 1, 1, .Request, .Ok⟩ [5, 6, 7]).toBytes =
      .ok (SomeIpMessage.new ⟨1, 2, 0, 3, 4, 1, 1, .Request, .Ok⟩ [5, 6, 7]) :=
  message_roundtrip_valid _ (by decide) (by decide) (by decide)

/-- Counterexample for C6 as frozen: `SomeIpMessage::new` preserves the
caller's protocol-version byte, so a message built by `new` with protocol
version 0x02 satisfies the claim's validity condition (length field equals
8 plus payload length) yet fails to round-trip, decoding to
`WrongProtocolVersion` instead of `Ok`. -/
theorem message_roundtrip_counterexample :
    (SomeIpMessage.new ⟨0, 0, 0, 0, 0, 2, 1, .Request, .Ok⟩ []).header.length =
      8 + (SomeIpMessage.new ⟨0, 0, 0, 0, 0, 2, 1, .Request, .Ok⟩ []).payload.length ∧
    SomeIpMessage.fromBytes
        (SomeIpMessage.new ⟨0, 0, 0, 0, 0, 2, 1, .Request, .Ok⟩ []).toBytes =
      .error (.wrongProtocolVersion 2) :=
  ⟨by decide, by rfl⟩

/-- The header decoder never produces a `LengthMismatch` error; that error
is issued only by the message decoder. -/
theorem SomeIpHeader.fromBytes_ne_lengthMismatch (data : List Byte) (hl al : Nat) :
    SomeIpHeader.fromBytes data ≠ .error (.lengthMismatch hl al) := by
  unfold SomeIpHeader.fromBytes
  intro hcontra
  repeat' split at hcontra
  all_goals by_cases hbv : byteAt data 12 = 1 <;> simp [hbv] at hcontra

/-- A successful header decode implies the buffer holds at least 16 bytes. -/
theorem SomeIpHeader.fromBytes_ok_length (data : List Byte) (h : SomeIpHeader)
    (hok : SomeIpHeader.fromBytes data = .ok h) : 16 ≤ data.length := by
  by_cases hc : data.length < 16
  · unfold SomeIpHeader.fromBytes at hok
    rw [if_pos hc] at hok
    exact absurd hok (by simp)
  · omega

/-- C10 (amended): the message decoder tolerates trailing bytes.  Whenever
the header decodes successfully and the buffer holds at least
`16 + payload_length` bytes, decoding succeeds and takes the payload as
exactly the declared length, ignoring anything beyond it; and a
`LengthMismatch` error is issued only when the buffer is strictly shorter
than `16 + payload_length`. -/
theorem message_decode_trailing_data (data : List Byte) :
    (∀ h : SomeIpHeader, SomeIpHeader.fromBytes data = .ok h →
      16 + h.payloadLength ≤ data.length →
      SomeIpMessage.fromBytes data =
        .ok ⟨h, (data.drop 16).take h.payloadLength⟩) ∧
    (∀ hl al, SomeIpMessage.fromBytes data = .error (.lengthMismatch hl al) →
      ∃ h : SomeIpHeader, SomeIpHeader.fromBytes data = .ok h ∧
        data.length < 16 + h.payloadLength) := by
  constructor
  · intro h hok hfit
    have h16 := SomeIpHeader.fromBytes_ok_length data h hok
    unfold SomeIpMessage.fromBytes
    rw [if_neg (show ¬ data.length < 16 by omega), hok, except_bind_ok,
      if_neg (show ¬ data.length < 16 + h.payloadLength by omega)]
  · intro hl al hmm
    unfold SomeIpMessage.fromBytes at hmm
    by_cases hc : data.length < 16
    · rw [if_pos hc] at hmm
      exact absurd hmm (by simp)
    · rw [if_neg hc] at hmm
      cases hh : SomeIpHeader.fromBytes data with
      | error e =>
        rw [hh, except_bind_error] at hmm
        simp only [Except.error.injEq] at hmm
        exact absurd (hh.trans (congrArg Except.error hmm))
          (SomeIpHeader.fromBytes_ne_lengthMismatch data hl al)
      | ok h =>
        rw [hh, except_bind_ok] at hmm
        by_cases hfit : data.length < 16 + h.payloadLength
        · exact ⟨h, rfl, hfit⟩
        · rw [if_neg hfit] at hmm
          exact absurd hmm (by simp)

/-- Witness for C10 at a concrete 18-byte buffer whose header declares a
1-byte payload: the decode succeeds and ignores the final trailing byte. -/
theorem message_decode_trailing_data_witness :
    SomeIpMessage.fromBytes
        [0, 0, 0, 0, 0, 0, 0, 9, 0, 0, 0, 0, 1, 1, 0, 0, 42, 99] =
      .ok ⟨⟨0, 0, 9, 0, 0, 1, 1, .Request, .Ok⟩,
        (([0, 0, 0, 0, 0, 0, 0, 9, 0, 0, 0, 0, 1, 1, 0, 0, 42, 99] :
          List Byte).drop 16).take
          (SomeIpHeader.payloadLength ⟨0, 0, 9, 0, 0, 1, 1, .Request, .Ok⟩)⟩ :=
  (message_decode_trailing_data _).1 ⟨0, 0, 9, 0, 0, 1, 1, .Request, .Ok⟩
    (by rfl) (by decide)

/-- Counterexample for C10 as frozen: a 16-byte buffer whose header
declares an empty payload (so the buffer length reaches
`16 + payload_length`) but whose protocol-version byte is 0x02 decodes to
an error, not to `Ok`. -/
theorem message_decode_trailing_data_counterexample :
    ([0, 0, 0, 0, 0, 0, 0, 8, 0, 0, 0, 0, 2, 1, 0, 0] : List Byte).length =
      16 + (u32be (byteAt [0, 0, 0, 0, 0, 0, 0, 8, 0, 0, 0, 0, 2, 1, 0, 0] 4)
        (byteAt [0, 0, 0, 0, 0, 0, 0, 8, 0, 0, 0, 0, 2, 1, 0, 0] 5)
        (byteAt [0, 0, 0, 0, 0, 0, 0, 8, 0, 0, 0, 0, 2, 1, 0, 0] 6)
        (byteAt [0, 0, 0, 0, 0, 0, 0, 8, 0, 0, 0, 0, 2, 1, 0, 0] 7) - 8) ∧
    SomeIpMessage.fromBytes [0, 0, 0, 0, 0, 0, 0, 8, 0, 0, 0, 0, 2, 1, 0, 0] =
      .error (.wrongProtocolVersion 2) :=
  ⟨by decide, by rfl⟩

theorem segmentLoop_stop (msg : SomeIpMessage) (S fuel offset : Nat)
    (h : msg.payload.length ≤ offset) : segmentLoop msg S fuel offset = [] := by
  cases fuel with
  | zero => rfl
  | succ f =>
    unfold segmentLoop
    rw [if_neg (by omega)]

/-- Characterization of the segmentation loop: starting at byte offset
`k * S` with enough fuel, it produces one segment per remaining chunk. -/
theorem segmentLoop_eq (msg : SomeIpMessage) (S : Nat) (hS : 1 ≤ S) :
    ∀ fuel k, k * S < msg.payload.length →
      msg.payload.length - k * S ≤ fuel →
      segmentLoop msg S fuel (k * S) =
        (List.range' k ((msg.payload.length - k * S + S - 1) / S)).map
          (segAt msg S) := by
  intro fuel
  induction fuel with
  | zero =>
    intro k hk hf
    omega
  | succ f ih =>
    intro k hk hf
    have hks : (k + 1) * S = k * S + S := by ring
    unfold segmentLoop
    rw [if_pos hk]
    show segAt msg S k ::
        segmentLoop msg S f (k * S + min (msg.payload.length - k * S) S) = _
    by_cases hcase : msg.payload.length - k * S ≤ S
    · have hcount : (msg.payload.length - k * S + S - 1) / S = 1 :=
        Nat.div_eq_of_lt_le (by omega) (by omega)
      rw [hcount, List.range'_one, List.map_cons, List.map_nil,
        segmentLoop_stop msg S f _ (by omega)]
    · have hstep : msg.payload.length - k * S + S - 1 =
          (msg.payload.length - (k + 1) * S + S - 1) + S := by omega
      have hcount : (msg.payload.length - k * S + S - 1) / S =
          (msg.payload.length - (k + 1) * S + S - 1) / S + 1 := by
        rw [hstep, Nat.add_div_right _ (by omega)]
      rw [hcount, List.range'_succ, List.map_cons]
      congr 1
      rw [show k * S + min (msg.payload.length - k * S) S = (k + 1) * S by omega]
      exact ih (k + 1) (by omega) (by omega)

/-- Closed form of `segment_message` when segmentation happens and the
segment bound is positive: one segment per chunk of the payload. -/
theorem segment_message_eq (msg : SomeIpMessage) (S : Nat) (hS : 1 ≤ S)
    (hL : S < msg.payload.length) :
    segment_message msg S =
      (List.range ((msg.payload.length + S - 1) / S)).map (segAt msg S) := by
  unfold segment_message
  rw [if_neg (by omega), List.range_eq_range']
  have := segmentLoop_eq msg S hS (msg.payload.length + 1) 0 (by omega) (by omega)
  simpa using this

/-- C5 (amended): for every message and every positive multiple of 16 as
`max_segment_payload`, whenever `segment_message` returns a non-empty list,
every segment except the last carries exactly `S` payload bytes — a
positive multiple of 16 — the last segment's more flag is false, all other
more flags are true, and every segment's TP offset is its byte offset
`i * S` divided by 16. -/
theorem segmenter_segment_shape (m : SomeIpMessage) (S : Nat)
    (hS16 : S % 16 = 0) (hSpos : 0 < S)
    (hne : segment_message m S ≠ []) :
    ∀ i (hi : i < (segment_message m S).length),
      (i + 1 < (segment_message m S).length →
        ((segment_message m S).get ⟨i, hi⟩).payload.length = S ∧
        16 ∣ ((segment_message m S).get ⟨i, hi⟩).payload.length ∧
        0 < ((segment_message m S).get ⟨i, hi⟩).payload.length) ∧
      ((segment_message m S).get ⟨i, hi⟩).tpHeader.more =
        decide (i + 1 < (segment_message m S).length) ∧
      ((segment_message m S).get ⟨i, hi⟩).tpHeader.offset = i * S / 16 := by
  have hL : S < m.payload.length := by
    by_contra hc
    exact hne (by unfold segment_message; rw [if_pos (by omega)])
  obtain ⟨n, hn⟩ : ∃ n, n = (m.payload.length + S - 1) / S := ⟨_, rfl⟩
  obtain ⟨r, hr1, hr2⟩ : ∃ r, S * n + r = m.payload.length + S - 1 ∧ r < S := by
    rw [hn]
    exact ⟨_, Nat.div_add_mod _ _, Nat.mod_lt _ hSpos⟩
  have hclosed := segment_message_eq m S (by omega) hL
  have hlen : (segment_message m S).length = n := by
    rw [hclosed, List.length_map, List.length_range, ← hn]
  have hcomm : n * S = S * n := by ring
  intro i hi
  have hin : i < n := by omega
  have hget : (segment_message m S).get ⟨i, hi⟩ = segAt m S i := by
    have := List.get_of_eq hclosed ⟨i, hi⟩
    rw [this]
    simp
  -- arithmetic facts about the chunk index
  have hm1 : (i + 1) * S ≤ n * S := Nat.mul_le_mul_right S (by omega)
  have he1 : (i + 1) * S = i * S + S := by ring
  have hiS : i * S < m.payload.length := by omega
  constructor
  · intro hlast
    have hm2 : (i + 2) * S ≤ n * S := Nat.mul_le_mul_right S (by omega)
    have he2 : (i + 2) * S = i * S + S + S := by ring
    have hfit : i * S + S < m.payload.length := by omega
    have hsz : min (m.payload.length - i * S) S = S := by omega
    have hplen : (segAt m S i).payload.length = S := by
      show ((m.payload.drop (i * S)).take
        (min (m.payload.length - i * S) S)).length = S
      rw [hsz, List.length_take, List.length_drop]
      omega
    rw [hget]
    exact ⟨hplen, by rw [hplen]; exact Nat.dvd_of_mod_eq_zero hS16,
      by rw [hplen]; exact hSpos⟩
  · constructor
    · by_cases hlast : i + 1 < (segment_message m S).length
      · have hm2 : (i + 2) * S ≤ n * S := Nat.mul_le_mul_right S (by omega)
        have he2 : (i + 2) * S = i * S + S + S := by ring
        have hfit : i * S + S < m.payload.length := by omega
        have hmore : (segAt m S i).tpHeader.more = true := by
          show (!decide (m.payload.length ≤
            i * S + min (m.payload.length - i * S) S)) = true
          have hnc : ¬ (m.payload.length ≤
              i * S + min (m.payload.length - i * S) S) := by omega
          simp [hnc]
        rw [hget, hmore]
        simp [hlast]
      · -- last chunk: i + 1 equals the chunk count, so the chunk reaches the end
        have hieq : i + 1 = n := by omega
        have he3 : n * S = i * S + S := by rw [← hieq]; ring
        have hcover : m.payload.length ≤ i * S + S := by omega
        have hmore : (segAt m S i).tpHeader.more = false := by
          show (!decide (m.payload.length ≤
            i * S + min (m.payload.length - i * S) S)) = false
          have hc2 : m.payload.length ≤
              i * S + min (m.payload.length - i * S) S := by omega
          simp [hc2]
        rw [hget, hmore]
        simp [hlast]
    · rw [hget]
      rfl

/-- Witness for C5: a 20-byte payload split with segment bound 16 gives two
segments; the properties are checked at segment index 0. -/
theorem segmenter_segment_shape_witness :
    let m20 : SomeIpMessage :=
      { header := ⟨1, 2, 28, 0, 0, 1, 1, .Request, .Ok⟩
        payload := List.replicate 20 7 }
    (0 + 1 < (segment_message m20 16).length →
      ((segment_message m20 16).get ⟨0, by decide⟩).payload.length = 16 ∧
      16 ∣ ((segment_message m20 16).get ⟨0, by decide⟩).payload.length ∧
      0 < ((segment_message m20 16).get ⟨0, by decide⟩).payload.length) ∧
    ((segment_message m20 16).get ⟨0, by decide⟩).tpHeader.more =
      decide (0 + 1 < (segment_message m20 16).length) ∧
    ((segment_message m20 16).get ⟨0, by decide⟩).tpHeader.offset = 0 * 16 / 16 :=
  segmenter_segment_shape _ 16 (by decide) (by decide) (by decide) 0 (by decide)

/-- Counterexample for C5 as frozen: with `max_segment_payload = 10` (not a
multiple of 16) a 20-byte payload is split into two segments whose first —
a non-final segment — carries 10 payload bytes, which is not a multiple of
16. -/
theorem segmenter_segment_shape_counterexample :
    (segment_message
        { header := ⟨1, 2, 28, 0, 0, 1, 1, .Request, .Ok⟩
          payload := List.replicate 20 7 } 10).map
        (fun s => s.payload.length) = [10, 10] ∧
    ¬ (16 ∣ 10) := by
  constructor
  · rfl
  · decide

theorem mem_insertSorted (k : Nat) (v : List Byte) :
    ∀ {l x}, x ∈ insertSorted k v l → x = (k, v) ∨ x ∈ l := by
  intro l
  induction l with
  | nil =>
    intro x hx
    left
    simpa [insertSorted] using hx
  | cons e rest ih =>
    intro x hx
    obtain ⟨k2, v2⟩ := e
    unfold insertSorted at hx
    by_cases h1 : k < k2
    · rw [if_pos h1] at hx
      rcases List.mem_cons.mp hx with rfl | hx2
      · exact Or.inl rfl
      · exact Or.inr hx2
    · rw [if_neg h1] at hx
      by_cases h2 : k = k2
      · rw [if_pos h2] at hx
        rcases List.mem_cons.mp hx with rfl | hx2
        · exact Or.inl rfl
        · exact Or.inr (List.mem_cons_of_mem _ hx2)
      · rw [if_neg h2] at hx
        rcases List.mem_cons.mp hx with rfl | hx2
        · exact Or.inr (List.mem_cons_self _ _)
        · rcases ih hx2 with h | h
          · exact Or.inl h
          · exact Or.inr (List.mem_cons_of_mem _ h)

theorem insertSorted_pairwise (k : Nat) (v : List Byte) :
    ∀ {l}, l.Pairwise (fun a b => a.1 < b.1) →
      (insertSorted k v l).Pairwise (fun a b => a.1 < b.1) := by
  intro l
  induction l with
  | nil =>
    intro _
    simp [insertSorted]
  | cons e rest ih =>
    intro hp
    obtain ⟨k2, v2⟩ := e
    rw [List.pairwise_cons] at hp
    obtain ⟨hhead, htail⟩ := hp
    unfold insertSorted
    by_cases h1 : k < k2
    · rw [if_pos h1, List.pairwise_cons]
      refine ⟨?_, List.pairwise_cons.mpr ⟨hhead, htail⟩⟩
      intro x hx
      rcases List.mem_cons.mp hx with rfl | hx2
      · exact h1
      · exact h1.trans (hhead x hx2)
    · rw [if_neg h1]
      by_cases h2 : k = k2
      · rw [if_pos h2, List.pairwise_cons]
        exact ⟨fun x hx => h2 ▸ hhead x hx, htail⟩
      · rw [if_neg h2, List.pairwise_cons]
        refine ⟨?_, ih htail⟩
        intro x hx
        rcases mem_insertSorted k v hx with rfl | hx2
        · omega
        · exact hhead x hx2

theorem insertSorted_perm (k : Nat) (v : List Byte) :
    ∀ {l}, k ∉ l.map Prod.fst → List.Perm (insertSorted k v l) ((k, v) :: l) := by
  intro l
  induction l with
  | nil =>
    intro _
    exact List.Perm.refl _
  | cons e rest ih =>
    intro hk
    obtain ⟨k2, v2⟩ := e
    rw [List.map_cons, List.mem_cons] at hk
    push_neg at hk
    unfold insertSorted
    by_cases h1 : k < k2
    · rw [if_pos h1]
    · rw [if_neg h1]
      by_cases h2 : k = k2
      · exact absurd h2 hk.1
      · rw [if_neg h2]
        exact ((ih hk.2).cons (k2, v2)).trans (List.Perm.swap (k, v) (k2, v2) rest)

theorem sortOf_append_singleton (l : List TpSegment) (s : TpSegment) :
    sortOf (l ++ [s]) = insertSorted s.tpHeader.offset s.payload (sortOf l) := by
  unfold sortOf
  rw [List.foldl_append]
  rfl

theorem sortOf_pairwise (l : List TpSegment) :
    (sortOf l).Pairwise (fun a b => a.1 < b.1) := by
  suffices h : ∀ (l2 : List TpSegment) acc, acc.Pairwise (fun a b => a.1 < b.1) →
      (l2.foldl (fun acc s => insertSorted s.tpHeader.offset s.payload acc)
        acc).Pairwise (fun a b => a.1 < b.1) by
    exact h l [] List.Pairwise.nil
  intro l2
  induction l2 with
  | nil => exact fun acc h => h
  | cons s rest ih =>
    intro acc hacc
    exact ih _ (insertSorted_pairwise _ _ hacc)

theorem sortOf_perm (l : List TpSegment)
    (h : (l.map (fun s => s.tpHeader.offset)).Nodup) :
    List.Perm (sortOf l) (l.map (fun s => (s.tpHeader.offset, s.payload))) := by
  induction l using List.reverseRecOn with
  | nil => exact List.Perm.refl _
  | append_singleton l2 s ih =>
    rw [List.map_append, List.nodup_append] at h
    obtain ⟨h1, _, h3⟩ := h
    have hperm := ih h1
    have hkeys : List.Perm ((sortOf l2).map Prod.fst)
        (l2.map (fun s => s.tpHeader.offset)) := by
      have := hperm.map Prod.fst
      rw [List.map_map] at this
      exact this
    have hfresh : s.tpHeader.offset ∉ (sortOf l2).map Prod.fst := by
      intro hmem
      exact h3 (hkeys.mem_iff.mp hmem) (by simp)
    rw [sortOf_append_singleton, List.map_append, List.map_cons, List.map_nil]
    exact ((insertSorted_perm _ _ hfresh).trans (hperm.cons _)).trans
      (List.perm_append_singleton _ _).symm

theorem completeLoop_le_sum (total : Nat) :
    ∀ entries expected acc, completeLoop total expected acc entries = true →
      total ≤ acc + (entries.map (fun e => e.2.length)).sum := by
  intro entries
  induction entries with
  | nil =>
    intro expected acc h
    simpa [completeLoop] using h
  | cons e rest ih =>
    intro expected acc h
    obtain ⟨off, p⟩ := e
    unfold completeLoop at h
    by_cases hoff : off ≠ expected
    · rw [if_pos hoff] at h
      exact absurd h (by simp)
    · rw [if_neg hoff] at h
      have := ih _ _ h
      simp only [List.map_cons, List.sum_cons]
      omega

theorem segAt_payload_def (m : SomeIpMessage) (S i : Nat) :
    (segAt m S i).payload =
      (m.payload.drop (i * S)).take (min (m.payload.length - i * S) S) := rfl

theorem segAt_offset_eq (m : SomeIpMessage) (S i : Nat) (h16 : S % 16 = 0) :
    (segAt m S i).tpHeader.offset = i * (S / 16) := by
  show i * S / 16 = i * (S / 16)
  exact Nat.mul_div_assoc i (Nat.dvd_of_mod_eq_zero h16)

theorem numChunks_split (m : SomeIpMessage) (S : Nat) (hSpos : 0 < S) :
    ∃ r, S * numChunks m S + r = m.payload.length + S - 1 ∧ r < S := by
  unfold numChunks
  exact ⟨_, Nat.div_add_mod _ _, Nat.mod_lt _ hSpos⟩

theorem chunk_index_lt (m : SomeIpMessage) (S j : Nat) (hSpos : 0 < S)
    (hL : S < m.payload.length) (hj : j < numChunks m S) :
    j * S < m.payload.length := by
  obtain ⟨r, hr1, hr2⟩ := numChunks_split m S hSpos
  have hm1 : (j + 1) * S ≤ numChunks m S * S := Nat.mul_le_mul_right S (by omega)
  have he1 : (j + 1) * S = j * S + S := by ring
  have hcomm : numChunks m S * S = S * numChunks m S := by ring
  omega

theorem chunk_fit (m : SomeIpMessage) (S j : Nat) (hSpos : 0 < S)
    (hL : S < m.payload.length) (hj : j + 1 < numChunks m S) :
    j * S + S < m.payload.length := by
  obtain ⟨r, hr1, hr2⟩ := numChunks_split m S hSpos
  have hm2 : (j + 2) * S ≤ numChunks m S * S := Nat.mul_le_mul_right S (by omega)
  have he2 : (j + 2) * S = j * S + S + S := by ring
  have hcomm : numChunks m S * S = S * numChunks m S := by ring
  omega

theorem chunk_cover (m : SomeIpMessage) (S j : Nat) (hSpos : 0 < S)
    (hj : j + 1 = numChunks m S) :
    m.payload.length ≤ j * S + S := by
  obtain ⟨r, hr1, hr2⟩ := numChunks_split m S hSpos
  have he3 : numChunks m S * S = j * S + S := by rw [← hj]; ring
  have hcomm : numChunks m S * S = S * numChunks m S := by ring
  omega

theorem payload_le_numChunks_mul (m : SomeIpMessage) (S : Nat) (hSpos : 0 < S)
    (hL : 0 < m.payload.length) :
    m.payload.length ≤ numChunks m S * S := by
  obtain ⟨r, hr1, hr2⟩ := numChunks_split m S hSpos
  have hcomm : numChunks m S * S = S * numChunks m S := by ring
  omega

theorem numChunks_ge_two (m : SomeIpMessage) (S : Nat) (hSpos : 0 < S)
    (hL : S < m.payload.length) : 2 ≤ numChunks m S := by
  by_contra hc
  push_neg at hc
  have h1 : numChunks m S * S ≤ 1 * S := Nat.mul_le_mul_right S (by omega)
  have h2 := payload_le_numChunks_mul m S hSpos (by omega)
  have h3 : (1 : Nat) * S = S := by ring
  omega

theorem segAt_payload_length (m : SomeIpMessage) (S j : Nat)
    (hjS : j * S < m.payload.length) :
    (segAt m S j).payload.length = min (m.payload.length - j * S) S := by
  rw [segAt_payload_def, List.length_take, List.length_drop]
  omega

theorem segAt_more_true (m : SomeIpMessage) (S j : Nat)
    (hfit : j * S + S < m.payload.length) :
    (segAt m S j).tpHeader.more = true := by
  show (!decide (m.payload.length ≤
    j * S + min (m.payload.length - j * S) S)) = true
  have hnc : ¬ (m.payload.length ≤
      j * S + min (m.payload.length - j * S) S) := by omega
  simp [hnc]

theorem segAt_more_false (m : SomeIpMessage) (S j : Nat)
    (hjS : j * S < m.payload.length)
    (hcover : m.payload.length ≤ j * S + S) :
    (segAt m S j).tpHeader.more = false := by
  show (!decide (m.payload.length ≤
    j * S + min (m.payload.length - j * S) S)) = false
  have hc2 : m.payload.length ≤
      j * S + min (m.payload.length - j * S) S := by omega
  simp [hc2]

theorem segAt_byteOffset (m : SomeIpMessage) (S j : Nat) (h16 : S % 16 = 0) :
    (segAt m S j).tpHeader.byteOffset = j * S := by
  show j * S / 16 * 16 = j * S
  exact Nat.div_mul_cancel (Dvd.dvd.mul_left (Nat.dvd_of_mod_eq_zero h16) j)

theorem chunks_flatten_take (m : SomeIpMessage) (S : Nat) (hSpos : 0 < S)
    (hL : S < m.payload.length) :
    ∀ jmax, jmax ≤ numChunks m S →
      ((List.range jmax).map (fun i => (segAt m S i).payload)).flatten =
        m.payload.take (min (jmax * S) m.payload.length) := by
  intro jmax
  induction jmax with
  | zero =>
    intro _
    simp
  | succ j ih =>
    intro hj
    rw [List.range_succ, List.map_append, List.map_cons, List.map_nil,
      List.flatten_append, ih (by omega)]
    simp only [List.flatten_cons, List.flatten_nil, List.append_nil]
    have hjS : j * S < m.payload.length := chunk_index_lt m S j hSpos hL (by omega)
    have hmin1 : min (j * S) m.payload.length = j * S := by omega
    rw [hmin1, segAt_payload_def, ← List.take_add]
    have he1 : (j + 1) * S = j * S + S := by ring
    have h2 : j * S + min (m.payload.length - j * S) S =
        min ((j + 1) * S) m.payload.length := by omega
    rw [h2]

theorem segs_flatten (m : SomeIpMessage) (S : Nat) (hSpos : 0 < S)
    (hL : S < m.payload.length) :
    ((List.range (numChunks m S)).map (fun i => (segAt m S i).payload)).flatten =
      m.payload := by
  rw [chunks_flatten_take m S hSpos hL _ le_rfl]
  have h1 := payload_le_numChunks_mul m S hSpos (by omega)
  rw [show min (numChunks m S * S) m.payload.length = m.payload.length by omega,
    List.take_length]

theorem segs_length_sum (m : SomeIpMessage) (S : Nat) (hSpos : 0 < S)
    (hL : S < m.payload.length) :
    ((List.range (numChunks m S)).map
      (fun i => (segAt m S i).payload.length)).sum = m.payload.length := by
  have h := congrArg List.length (segs_flatten m S hSpos hL)
  rw [List.length_flatten, List.map_map] at h
  exact h

theorem segs_offsets_nodup (m : SomeIpMessage) (S : Nat) (h16 : S % 16 = 0)
    (hS1 : 16 ≤ S) :
    (((List.range (numChunks m S)).map (segAt m S)).map
      (fun s => s.tpHeader.offset)).Nodup := by
  rw [List.map_map]
  have heq : ((List.range (numChunks m S)).map
      ((fun s => s.tpHeader.offset) ∘ segAt m S)) =
      (List.range (numChunks m S)).map (fun i => i * (S / 16)) :=
    List.map_congr_left (fun i _ => segAt_offset_eq m S i h16)
  rw [heq]
  refine List.Nodup.map ?_ (List.nodup_range _)
  intro a b hab
  have hu : 1 ≤ S / 16 := by
    have := Nat.div_add_mod S 16
    omega
  exact Nat.eq_of_mul_eq_mul_right (by omega) hab

theorem canonical_entries_pairwise (m : SomeIpMessage) (S : Nat)
    (h16 : S % 16 = 0) (hS1 : 16 ≤ S) :
    ((List.range (numChunks m S)).map (fun i =>
      ((segAt m S i).tpHeader.offset, (segAt m S i).payload))).Pairwise
      (fun a b => a.1 < b.1) := by
  refine (List.pairwise_map).mpr ?_
  refine (List.pairwise_lt_range _).imp ?_
  intro a b hab
  show (segAt m S a).tpHeader.offset < (segAt m S b).tpHeader.offset
  rw [segAt_offset_eq m S a h16, segAt_offset_eq m S b h16]
  have hu : 1 ≤ S / 16 := by
    have := Nat.div_add_mod S 16
    omega
  have hm1 : (a + 1) * (S / 16) ≤ b * (S / 16) :=
    Nat.mul_le_mul_right _ (by omega)
  have he1 : (a + 1) * (S / 16) = a * (S / 16) + S / 16 := by ring
  omega

theorem completeLoop_canonical (m : SomeIpMessage) (S : Nat)
    (h16 : S % 16 = 0) (hS1 : 16 ≤ S) (hL : S < m.payload.length) :
    ∀ cnt k, 1 ≤ cnt → k + cnt = numChunks m S →
      completeLoop m.payload.length (k * (S / 16)) (k * S)
        ((List.range' k cnt).map (fun i =>
          ((segAt m S i).tpHeader.offset, (segAt m S i).payload))) = true := by
  intro cnt
  induction cnt with
  | zero =>
    intro k h1 _
    omega
  | succ c ih =>
    intro k hc hsum
    have hk : k < numChunks m S := by omega
    have hjS : k * S < m.payload.length := chunk_index_lt m S k (by omega) hL hk
    rw [List.range'_succ, List.map_cons]
    simp only [completeLoop]
    rw [segAt_offset_eq m S k h16, if_neg (by simp)]
    by_cases hlast : c = 0
    · subst hlast
      have hcov : m.payload.length ≤ k * S + S := chunk_cover m S k (by omega)
        (by omega)
      have hplen : (segAt m S k).payload.length = m.payload.length - k * S := by
        rw [segAt_payload_length m S k hjS]
        omega
      rw [hplen]
      simp only [List.range'_zero, List.map_nil, completeLoop]
      simp only [decide_eq_true_eq]
      omega
    · have hfit : k * S + S < m.payload.length :=
        chunk_fit m S k (by omega) hL (by omega)
      have hplen : (segAt m S k).payload.length = S := by
        rw [segAt_payload_length m S k hjS]
        omega
      rw [hplen]
      have he1 : k * S + S = (k + 1) * S := by ring
      have hdiv : (k * S + S) / 16 = (k + 1) * (S / 16) := by
        rw [he1]
        exact Nat.mul_div_assoc _ (Nat.dvd_of_mod_eq_zero h16)
      rw [hdiv, he1]
      exact ih (k + 1) (by omega) (by omega)

theorem mem_segment_message (m : SomeIpMessage) (S : Nat) (s : TpSegment)
    (hS1 : 1 ≤ S) (hL : S < m.payload.length)
    (hs : s ∈ segment_message m S) :
    ∃ j, j < numChunks m S ∧ s = segAt m S j := by
  rw [segment_message_eq m S hS1 hL] at hs
  obtain ⟨j, hj, rfl⟩ := List.mem_map.mp hs
  exact ⟨j, List.mem_range.mp hj, rfl⟩

theorem segAt_inj (m : SomeIpMessage) (S i j : Nat) (h16 : S % 16 = 0)
    (hS1 : 16 ≤ S) (h : segAt m S i = segAt m S j) : i = j := by
  have hoff := congrArg (fun s => s.tpHeader.offset) h
  simp only at hoff
  rw [segAt_offset_eq m S i h16, segAt_offset_eq m S j h16] at hoff
  have hu : 1 ≤ S / 16 := by
    have := Nat.div_add_mod S 16
    omega
  exact Nat.eq_of_mul_eq_mul_right (by omega) hoff

theorem toBase_toTpD (t : MessageType) :
    ((t.toTp).getD .TpRequest).toBase = t.toBase := by
  cases t <;> rfl

theorem fromHeader_segAt (m : SomeIpMessage) (S j : Nat) :
    ReassemblyKey.fromHeader (segAt m S j).header =
      ReassemblyKey.fromHeader m.header := rfl

/-- Effect of `add_segment` on a context that already holds the sorted map
of `fed`: the map gains the new segment and the total length becomes known
exactly when the final chunk is now present. -/
theorem addSegment_ctx (m : SomeIpMessage) (S : Nat) (h16 : S % 16 = 0)
    (hS1 : 16 ≤ S) (hL : S < m.payload.length) (fed : List TpSegment)
    (j : Nat) (hj : j < numChunks m S) (bh : SomeIpHeader) :
    (ReassemblyContext.mk bh (sortOf fed)
        (if segAt m S (numChunks m S - 1) ∈ fed
          then some m.payload.length else none)).addSegment (segAt m S j) =
      ReassemblyContext.mk bh (sortOf (fed ++ [segAt m S j]))
        (if segAt m S (numChunks m S - 1) ∈ fed ++ [segAt m S j]
          then some m.payload.length else none) := by
  unfold ReassemblyContext.addSegment
  rw [sortOf_append_singleton]
  by_cases hcase : j + 1 = numChunks m S
  · have hjS : j * S < m.payload.length :=
      chunk_index_lt m S j (by omega) hL hj
    have hmore := segAt_more_false m S j hjS (chunk_cover m S j (by omega) hcase)
    rw [hmore]
    have htot : (segAt m S j).tpHeader.byteOffset +
        (segAt m S j).payload.length = m.payload.length := by
      rw [segAt_byteOffset m S j h16, segAt_payload_length m S j hjS]
      have := chunk_cover m S j (by omega) hcase
      omega
    have hmem : segAt m S (numChunks m S - 1) ∈ fed ++ [segAt m S j] := by
      rw [show numChunks m S - 1 = j by omega]
      simp
    rw [if_pos hmem]
    simp only [Bool.not_false, if_true, htot]
  · have hmore := segAt_more_true m S j
      (chunk_fit m S j (by omega) hL (by omega))
    rw [hmore]
    have hne : segAt m S j ≠ segAt m S (numChunks m S - 1) := by
      intro heq
      have := segAt_inj m S j (numChunks m S - 1) h16 hS1 heq
      omega
    have hmemiff : (segAt m S (numChunks m S - 1) ∈ fed ++ [segAt m S j]) ↔
        (segAt m S (numChunks m S - 1) ∈ fed) := by
      rw [List.mem_append, List.mem_singleton]
      constructor
      · rintro (h | h)
        · exact h
        · exact absurd h.symm hne
      · exact Or.inl
    simp only [hmemiff, Bool.not_true]
    rw [if_neg (by simp)]

theorem segs_sum_lengths (m : SomeIpMessage) (S : Nat) (hS1 : 1 ≤ S)
    (hL : S < m.payload.length) :
    ((segment_message m S).map (fun t => t.payload.length)).sum =
      m.payload.length := by
  rw [segment_message_eq m S hS1 hL, List.map_map]
  exact segs_length_sum m S (by omega) hL

theorem segs_offsets_nodup_closed (m : SomeIpMessage) (S : Nat)
    (h16 : S % 16 = 0) (hS1 : 16 ≤ S) (hL : S < m.payload.length) :
    ((segment_message m S).map (fun t => t.tpHeader.offset)).Nodup := by
  rw [segment_message_eq m S (by omega) hL]
  exact segs_offsets_nodup m S h16 hS1

/-- The completion test fails while at least one segment is still missing:
the accumulated bytes cannot reach the total. -/
theorem sortOf_incomplete (m : SomeIpMessage) (S : Nat) (h16 : S % 16 = 0)
    (hS1 : 16 ≤ S) (hL : S < m.payload.length) (fedA ext : List TpSegment)
    (hperm2 : List.Perm (fedA ++ ext) (segment_message m S)) (hext : ext ≠ []) :
    completeLoop m.payload.length 0 0 (sortOf fedA) = false := by
  by_contra hcl
  rw [Bool.not_eq_false] at hcl
  have hle := completeLoop_le_sum _ _ _ _ hcl
  have hnodupall : ((fedA ++ ext).map (fun t => t.tpHeader.offset)).Nodup :=
    ((hperm2.map _).nodup_iff).mpr (segs_offsets_nodup_closed m S h16 hS1 hL)
  have hnodupfed : (fedA.map (fun t => t.tpHeader.offset)).Nodup := by
    rw [List.map_append] at hnodupall
    exact hnodupall.of_append_left
  have hsortperm := sortOf_perm fedA hnodupfed
  have hsum1 : ((sortOf fedA).map (fun e => e.2.length)).sum =
      (fedA.map (fun t => t.payload.length)).sum := by
    rw [(hsortperm.map (fun e => e.2.length)).sum_eq, List.map_map]
    rfl
  have hsumall : ((fedA ++ ext).map (fun t => t.payload.length)).sum =
      m.payload.length := by
    rw [(hperm2.map (fun t => t.payload.length)).sum_eq]
    exact segs_sum_lengths m S (by omega) hL
  rw [List.map_append, List.sum_append] at hsumall
  have hextpos : 1 ≤ (ext.map (fun t => t.payload.length)).sum := by
    obtain ⟨e, ext2, rfl⟩ : ∃ e ext2, ext = e :: ext2 := by
      cases ext with
      | nil => exact absurd rfl hext
      | cons e ext2 => exact ⟨e, ext2, rfl⟩
    have hemem : e ∈ segment_message m S := hperm2.subset (by simp)
    obtain ⟨je, hje, rfl⟩ := mem_segment_message m S e (by omega) hL hemem
    have hjeS : je * S < m.payload.length :=
      chunk_index_lt m S je (by omega) hL hje
    have h1 : 1 ≤ (segAt m S je).payload.length := by
      rw [segAt_payload_length m S je hjeS]
      omega
    simp only [List.map_cons, List.sum_cons]
    omega
  omega

/-- Once every segment has been inserted, the sorted map is exactly the
canonical chunk list. -/
theorem sortOf_full_eq (m : SomeIpMessage) (S : Nat) (h16 : S % 16 = 0)
    (hS1 : 16 ≤ S) (hL : S < m.payload.length) (fedA : List TpSegment)
    (hperm2 : List.Perm fedA (segment_message m S)) :
    sortOf fedA = (List.range (numChunks m S)).map (fun i =>
      ((segAt m S i).tpHeader.offset, (segAt m S i).payload)) := by
  have hnodupfed : (fedA.map (fun t => t.tpHeader.offset)).Nodup :=
    ((hperm2.map _).nodup_iff).mpr (segs_offsets_nodup_closed m S h16 hS1 hL)
  have hsortperm := sortOf_perm fedA hnodupfed
  have hcan : List.Perm (fedA.map (fun t => (t.tpHeader.offset, t.payload)))
      ((List.range (numChunks m S)).map (fun i =>
        ((segAt m S i).tpHeader.offset, (segAt m S i).payload))) := by
    have := hperm2.map (fun t => (t.tpHeader.offset, t.payload))
    rw [segment_message_eq m S (by omega) hL, List.map_map] at this
    exact this
  haveI : IsAntisymm (Nat × List Byte) (fun a b => a.1 < b.1) :=
    ⟨fun a b h1 h2 => absurd (h1.trans h2) (lt_irrefl _)⟩
  exact List.eq_of_perm_of_sorted (hsortperm.trans hcan) (sortOf_pairwise fedA)
    (canonical_entries_pairwise m S h16 hS1)

theorem findCtx_single (k : ReassemblyKey) (c : ReassemblyContext) :
    findCtx k [(k, c)] = some c := by
  simp [findCtx]

theorem updateCtx_single (k : ReassemblyKey) (c c2 : ReassemblyContext) :
    updateCtx k c2 [(k, c)] = [(k, c2)] := by
  simp [updateCtx]

theorem removeCtx_single (k : ReassemblyKey) (c : ReassemblyContext) :
    removeCtx k [(k, c)] = [] := by
  simp [removeCtx]

/-- Feeding a segment while at least one other segment of the message is
still outstanding returns `None` and preserves the state invariant. -/
theorem feed_step_proper (m : SomeIpMessage) (S : Nat) (h16 : S % 16 = 0)
    (hS1 : 16 ≤ S) (hL : S < m.payload.length)
    (fed ext : List TpSegment) (s : TpSegment) (r : TpReassembler)
    (hperm : List.Perm (fed ++ s :: ext) (segment_message m S))
    (hext : ext ≠ [])
    (hinv : reassemblyInv m S fed r) :
    (r.feed s).2 = .ok none ∧ reassemblyInv m S (fed ++ [s]) (r.feed s).1 := by
  have hsmem : s ∈ segment_message m S := hperm.subset (by simp)
  obtain ⟨j, hj, hsj⟩ := mem_segment_message m S s (by omega) hL hsmem
  have hperm2 : List.Perm ((fed ++ [s]) ++ ext) (segment_message m S) := by
    have he : (fed ++ [s]) ++ ext = fed ++ s :: ext := by simp
    rw [he]
    exact hperm
  have hincomp := sortOf_incomplete m S h16 hS1 hL (fed ++ [s]) ext hperm2 hext
  have hkey : ReassemblyKey.fromHeader s.header =
      ReassemblyKey.fromHeader m.header := by
    rw [hsj]
    rfl
  rcases hinv with ⟨hfnil, hcnil⟩ | ⟨hfne, jb, hjb, hctx⟩
  · subst hfnil
    have hfind : findCtx (ReassemblyKey.fromHeader s.header) r.contexts = none := by
      rw [hcnil]
      rfl
    have hadd : (ReassemblyContext.new s.header).addSegment s =
        ReassemblyContext.mk (segAt m S j).header (sortOf ([] ++ [s]))
          (if segAt m S (numChunks m S - 1) ∈ [] ++ [s]
            then some m.payload.length else none) := by
      have hctx0 : ReassemblyContext.new s.header =
          ReassemblyContext.mk (segAt m S j).header (sortOf [])
            (if segAt m S (numChunks m S - 1) ∈ ([] : List TpSegment)
              then some m.payload.length else none) := by
        rw [hsj]
        simp [ReassemblyContext.new, sortOf]
      rw [hctx0, hsj]
      exact addSegment_ctx m S h16 hS1 hL [] j hj _
    have hcompfalse : ((ReassemblyContext.new s.header).addSegment s).isComplete
        = false := by
      rw [hadd]
      by_cases hmem : segAt m S (numChunks m S - 1) ∈ [] ++ [s]
      · rw [if_pos hmem]
        exact hincomp
      · rw [if_neg hmem]
        rfl
    have hfeed : r.feed s =
        (⟨updateCtx (ReassemblyKey.fromHeader s.header)
          ((ReassemblyContext.new s.header).addSegment s) r.contexts⟩,
         .ok none) := by
      simp only [TpReassembler.feed, hfind]
      rw [hcompfalse]
      simp
    refine ⟨by rw [hfeed], ?_⟩
    rw [hfeed]
    right
    refine ⟨by simp, j, hj, ?_⟩
    rw [hcnil]
    show [(ReassemblyKey.fromHeader s.header,
      (ReassemblyContext.new s.header).addSegment s)] = _
    rw [hadd, hkey]
  · have hfind : findCtx (ReassemblyKey.fromHeader s.header) r.contexts =
        some (ReassemblyContext.mk (segAt m S jb).header (sortOf fed)
          (if segAt m S (numChunks m S - 1) ∈ fed
            then some m.payload.length else none)) := by
      rw [hctx, hkey]
      exact findCtx_single _ _
    have hadd : (ReassemblyContext.mk (segAt m S jb).header (sortOf fed)
        (if segAt m S (numChunks m S - 1) ∈ fed
          then some m.payload.length else none)).addSegment s =
        ReassemblyContext.mk (segAt m S jb).header (sortOf (fed ++ [s]))
          (if segAt m S (numChunks m S - 1) ∈ fed ++ [s]
            then some m.payload.length else none) := by
      rw [hsj]
      exact addSegment_ctx m S h16 hS1 hL fed j hj _
    have hcompfalse : ((ReassemblyContext.mk (segAt m S jb).header (sortOf fed)
        (if segAt m S (numChunks m S - 1) ∈ fed
          then some m.payload.length else none)).addSegment s).isComplete
        = false := by
      rw [hadd]
      by_cases hmem : segAt m S (numChunks m S - 1) ∈ fed ++ [s]
      · rw [if_pos hmem]
        exact hincomp
      · rw [if_neg hmem]
        rfl
    have hfeed : r.feed s =
        (⟨updateCtx (ReassemblyKey.fromHeader s.header)
          ((ReassemblyContext.mk (segAt m S jb).header (sortOf fed)
            (if segAt m S (numChunks m S - 1) ∈ fed
              then some m.payload.length else none)).addSegment s) r.contexts⟩,
         .ok none) := by
      simp only [TpReassembler.feed, hfind]
      rw [hcompfalse]
      simp
    refine ⟨by rw [hfeed], ?_⟩
    rw [hfeed]
    right
    refine ⟨by simp, jb, hjb, ?_⟩
    rw [hctx, hkey, updateCtx_single, hadd]

/-- Feeding the last outstanding segment completes the reassembly: the
message is returned and the context deleted. -/
theorem feed_step_full (m : SomeIpMessage) (S : Nat) (h16 : S % 16 = 0)
    (hS1 : 16 ≤ S) (hL : S < m.payload.length)
    (hbound : m.payload.length + 8 < 2 ^ 32)
    (fed : List TpSegment) (s : TpSegment) (r : TpReassembler)
    (hperm : List.Perm (fed ++ [s]) (segment_message m S))
    (hinv : reassemblyInv m S fed r) :
    r.feed s = (⟨[]⟩, .ok (some (reassembledOf m))) := by
  have hsmem : s ∈ segment_message m S := hperm.subset (by simp)
  obtain ⟨j, hj, hsj⟩ := mem_segment_message m S s (by omega) hL hsmem
  have hn2 : 2 ≤ numChunks m S := numChunks_ge_two m S (by omega) hL
  have hsegslen : (segment_message m S).length = numChunks m S := by
    rw [segment_message_eq m S (by omega) hL, List.length_map, List.length_range]
    rfl
  have hlenfed : fed.length + 1 = numChunks m S := by
    have h1 := hperm.length_eq
    rw [hsegslen] at h1
    simpa using h1
  have hfedne : fed ≠ [] := by
    intro hc
    rw [hc] at hlenfed
    simp at hlenfed
    omega
  have hkey : ReassemblyKey.fromHeader s.header =
      ReassemblyKey.fromHeader m.header := by
    rw [hsj]
    rfl
  rcases hinv with ⟨hfnil, _⟩ | ⟨_, jb, hjb, hctx⟩
  · exact absurd hfnil hfedne
  · have hfind : findCtx (ReassemblyKey.fromHeader s.header) r.contexts =
        some (ReassemblyContext.mk (segAt m S jb).header (sortOf fed)
          (if segAt m S (numChunks m S - 1) ∈ fed
            then some m.payload.length else none)) := by
      rw [hctx, hkey]
      exact findCtx_single _ _
    have hadd : (ReassemblyContext.mk (segAt m S jb).header (sortOf fed)
        (if segAt m S (numChunks m S - 1) ∈ fed
          then some m.payload.length else none)).addSegment s =
        ReassemblyContext.mk (segAt m S jb).header (sortOf (fed ++ [s]))
          (if segAt m S (numChunks m S - 1) ∈ fed ++ [s]
            then some m.payload.length else none) := by
      rw [hsj]
      exact addSegment_ctx m S h16 hS1 hL fed j hj _
    have hsfull := sortOf_full_eq m S h16 hS1 hL (fed ++ [s]) hperm
    have hmemlast : segAt m S (numChunks m S - 1) ∈ fed ++ [s] := by
      apply hperm.mem_iff.mpr
      rw [segment_message_eq m S (by omega) hL]
      refine List.mem_map.mpr
        ⟨numChunks m S - 1, List.mem_range.mpr ?_, rfl⟩
      have hnc : numChunks m S = (m.payload.length + S - 1) / S := rfl
      omega
    have hcomp : ((ReassemblyContext.mk (segAt m S jb).header (sortOf fed)
        (if segAt m S (numChunks m S - 1) ∈ fed
          then some m.payload.length else none)).addSegment s).isComplete
        = true := by
      rw [hadd, if_pos hmemlast]
      show completeLoop m.payload.length 0 0 (sortOf (fed ++ [s])) = true
      rw [hsfull]
      have hcl := completeLoop_canonical m S h16 hS1 hL (numChunks m S) 0
        (by omega) (by omega)
      simpa [List.range_eq_range'] using hcl
    have hassemble : ((ReassemblyContext.mk (segAt m S jb).header (sortOf fed)
        (if segAt m S (numChunks m S - 1) ∈ fed
          then some m.payload.length else none)).addSegment s).assemble =
        .ok (reassembledOf m) := by
      rw [hadd, if_pos hmemlast]
      show Except.ok (SomeIpMessage.new
        { (segAt m S jb).header with
          messageType := (segAt m S jb).header.messageType.toBase }
        ((sortOf (fed ++ [s])).map Prod.snd).flatten) = _
      rw [hsfull, List.map_map]
      rw [show ((List.range (numChunks m S)).map
          (Prod.snd ∘ fun i =>
            ((segAt m S i).tpHeader.offset, (segAt m S i).payload))) =
          (List.range (numChunks m S)).map (fun i => (segAt m S i).payload)
        from rfl]
      rw [segs_flatten m S (by omega) hL]
      have hmsg : SomeIpMessage.new
          { (segAt m S jb).header with
            messageType := (segAt m S jb).header.messageType.toBase }
          m.payload = reassembledOf m := by
        unfold SomeIpMessage.new reassembledOf
        congr 1
        show SomeIpHeader.mk m.header.serviceId m.header.methodId
            ((m.payload.length % 2 ^ 32 + 8) % 2 ^ 32) m.header.clientId
            m.header.sessionId m.header.protocolVersion
            m.header.interfaceVersion
            (((m.header.messageType.toTp).getD .TpRequest).toBase)
            m.header.returnCode =
          SomeIpHeader.mk m.header.serviceId m.header.methodId
            (8 + m.payload.length) m.header.clientId m.header.sessionId
            m.header.protocolVersion m.header.interfaceVersion
            m.header.messageType.toBase m.header.returnCode
        rw [toBase_toTpD]
        congr 1
        omega
      rw [hmsg]
    have hfeed : r.feed s =
        (⟨removeCtx (ReassemblyKey.fromHeader s.header) r.contexts⟩,
         .ok (some (reassembledOf m))) := by
      simp only [TpReassembler.feed, hfind]
      rw [hcomp]
      simp only [if_true]
      rw [hassemble]
    rw [hfeed, hctx, hkey, removeCtx_single]

/-- Feeding any tail of a permutation of the segment list: every feed but
the last returns `None`, the last returns the reassembled message, and no
context remains. -/
theorem feedAll_run (m : SomeIpMessage) (S : Nat) (h16 : S % 16 = 0)
    (hS1 : 16 ≤ S) (hL : S < m.payload.length)
    (hbound : m.payload.length + 8 < 2 ^ 32) :
    ∀ (cur fed : List TpSegment) (r : TpReassembler),
      1 ≤ cur.length →
      List.Perm (fed ++ cur) (segment_message m S) →
      reassemblyInv m S fed r →
      (r.feedAll cur).2 =
        List.replicate (cur.length - 1) (Except.ok none) ++
          [Except.ok (some (reassembledOf m))] ∧
      (r.feedAll cur).1.contexts = [] := by
  intro cur
  induction cur with
  | nil =>
    intro fed r h1
    simp at h1
  | cons s rest ih =>
    intro fed r h1 hperm hinv
    by_cases hrest : rest = []
    · subst hrest
      have hfull := feed_step_full m S h16 hS1 hL hbound fed s r hperm hinv
      simp only [TpReassembler.feedAll, hfull]
      simp
    · obtain ⟨hout, hinv2⟩ :=
        feed_step_proper m S h16 hS1 hL fed rest s r hperm hrest hinv
      have hpermnext : List.Perm ((fed ++ [s]) ++ rest) (segment_message m S) := by
        have he : (fed ++ [s]) ++ rest = fed ++ s :: rest := by simp
        rw [he]
        exact hperm
      obtain ⟨e, rest2, rfl⟩ : ∃ e rest2, rest = e :: rest2 := by
        cases rest with
        | nil => exact absurd rfl hrest
        | cons e rest2 => exact ⟨e, rest2, rfl⟩
      have ihres := ih (fed ++ [s]) (r.feed s).1 (by simp) hpermnext hinv2
      constructor
      · show (r.feed s).2 :: ((r.feed s).1.feedAll (e :: rest2)).2 = _
        rw [hout, ihres.1]
        simp [List.replicate_succ]
      · show ((r.feed s).1.feedAll (e :: rest2)).1.contexts = []
        exact ihres.2

/-- C2: for every message with payload longer than the segment bound S,
with S a multiple of 16 in [16, 65535] (and the payload small enough for
its length field), feeding the segments produced by `segment_message` to
`TpReassembler::feed` in any order returns `None` for every segment but
the last fed, returns on the last one the original message with its
message type rewritten to the non-TP base form and its length field set to
8 + payload length, and deletes the reassembly context. -/
theorem tp_segment_reassembly_roundtrip (m : SomeIpMessage) (S : Nat)
    (l : List TpSegment)
    (hS1 : 16 ≤ S) (hS2 : S ≤ 65535) (hS16 : S % 16 = 0)
    (hL : S < m.payload.length)
    (hbound : m.payload.length + 8 < 2 ^ 32)
    (hperm : List.Perm l (segment_message m S)) :
    (TpReassembler.empty.feedAll l).2 =
      List.replicate (l.length - 1) (Except.ok none) ++
        [Except.ok (some (reassembledOf m))] ∧
    (TpReassembler.empty.feedAll l).1.contexts = [] := by
  have hsegslen : (segment_message m S).length = numChunks m S := by
    rw [segment_message_eq m S (by omega) hL, List.length_map, List.length_range]
    rfl
  have h1 : 1 ≤ l.length := by
    have hle := hperm.length_eq
    have hn2 := numChunks_ge_two m S (by omega) hL
    omega
  exact feedAll_run m S hS16 hS1 hL hbound l [] TpReassembler.empty h1
    (by simpa using hperm) (Or.inl ⟨rfl, rfl⟩)

/-- Witness for C2: a 17-byte payload split at segment bound 16 into two
segments, fed in reverse order. -/
theorem tp_segment_reassembly_roundtrip_witness :
    (TpReassembler.empty.feedAll
        (segment_message
          { header := ⟨1, 2, 25, 3, 4, 1, 1, .Request, .Ok⟩
            payload := List.range 17 } 16).reverse).2 =
      List.replicate
        ((segment_message
          { header := ⟨1, 2, 25, 3, 4, 1, 1, .Request, .Ok⟩
            payload := List.range 17 } 16).reverse.length - 1)
        (Except.ok none) ++
        [Except.ok (some (reassembledOf
          { header := ⟨1, 2, 25, 3, 4, 1, 1, .Request, .Ok⟩
            payload := List.range 17 }))] ∧
    (TpReassembler.empty.feedAll
        (segment_message
          { header := ⟨1, 2, 25, 3, 4, 1, 1, .Request, .Ok⟩
            payload := List.range 17 } 16).reverse).1.contexts = [] :=
  tp_segment_reassembly_roundtrip
    { header := ⟨1, 2, 25, 3, 4, 1, 1, .Request, .Ok⟩
      payload := List.range 17 } 16 _
    (by decide) (by decide) (by decide) (by decide) (by decide)
    (List.reverse_perm _)

theorem byteAt_append_right (l l2 : List Byte) (i : Nat) (h : l.length ≤ i) :
    byteAt (l ++ l2) i = byteAt l2 (i - l.length) := by
  unfold byteAt
  rw [List.getD_append_right _ _ _ _ h]

theorem u32be_ttl (v : Nat) (h : v < 2 ^ 24) :
    u32be 0 (v / 2 ^ 16 % 256) (v / 2 ^ 8 % 256) (v % 256) = v := by
  unfold u32be; omega

theorem nibble_hi (a b : Nat) (ha : a < 16) (hb : b < 16) :
    (a % 16 * 16 + b % 16) / 16 % 16 = a := by omega

theorem nibble_lo (a b : Nat) (hb : b < 16) :
    (a % 16 * 16 + b % 16) % 16 = b := by omega

theorem mod16_mod16 (a : Nat) (h : a < 16) : a % 16 % 16 = a := by omega

theorem EntryType.fromU8_toU8_entryType (t : EntryType) :
    EntryType.fromU8 t.toU8 = some t := by
  cases t <;> rfl

theorem OptionType.fromU8_toU8_optionType (t : OptionType) :
    OptionType.fromU8 t.toU8 = some t := by
  cases t <;> rfl

theorem TransportProtocol.fromU8_toU8_protocol (p : TransportProtocol) :
    TransportProtocol.fromU8 p.toU8 = some p := by
  cases p <;> rfl

theorem SdFlags.fromU8_toU8_flags (f : SdFlags) : SdFlags.fromU8 f.toU8 = f := by
  obtain ⟨r, u, e⟩ := f
  cases r <;> cases u <;> cases e <;> rfl

theorem ServiceEntry.toBytes_length_service (e : ServiceEntry) : e.toBytes.length = 16 := rfl

theorem EventgroupEntry.toBytes_length_eventgroup (e : EventgroupEntry) :
    e.toBytes.length = 16 := rfl

theorem SdEntry.toBytes_length_sdentry (e : SdEntry) : e.toBytes.length = 16 := by
  cases e <;> rfl

/-- Decoding the encoding of a wellformed service entry succeeds for any
trailing bytes. -/
theorem ServiceEntry.fromBytes_toBytes_append_service (e : ServiceEntry) (extra : List Byte)
    (hw : e.wf) : ServiceEntry.fromBytes (e.toBytes ++ extra) = .ok e := by
  obtain ⟨hk, hi1, hi2, hn1, hn2, hsid, hiid, hmj, httl, hmn⟩ := hw
  have hlen : ¬ (e.toBytes ++ extra).length < 16 := by
    rw [List.length_append, e.toBytes_length_service]; omega
  have hb : ∀ i, i < 16 → byteAt (e.toBytes ++ extra) i = byteAt e.toBytes i := by
    intro i hi
    exact byteAt_append_left _ _ _ (by rw [e.toBytes_length_service]; omega)
  have e0 : byteAt (e.toBytes ++ extra) 0 = e.entryType.toU8 := hb 0 (by omega)
  have e1 : byteAt (e.toBytes ++ extra) 1 = e.indexFirstOption := hb 1 (by omega)
  have e2 : byteAt (e.toBytes ++ extra) 2 = e.indexSecondOption := hb 2 (by omega)
  have e3 : byteAt (e.toBytes ++ extra) 3 =
      e.numOptions1 % 16 * 16 + e.numOptions2 % 16 := hb 3 (by omega)
  have e4 : byteAt (e.toBytes ++ extra) 4 = e.serviceId / 256 % 256 := hb 4 (by omega)
  have e5 : byteAt (e.toBytes ++ extra) 5 = e.serviceId % 256 := hb 5 (by omega)
  have e6 : byteAt (e.toBytes ++ extra) 6 = e.instanceId / 256 % 256 := hb 6 (by omega)
  have e7 : byteAt (e.toBytes ++ extra) 7 = e.instanceId % 256 := hb 7 (by omega)
  have e8 : byteAt (e.toBytes ++ extra) 8 = e.majorVersion := hb 8 (by omega)
  have e9 : byteAt (e.toBytes ++ extra) 9 = e.ttl / 2 ^ 16 % 256 := hb 9 (by omega)
  have e10 : byteAt (e.toBytes ++ extra) 10 = e.ttl / 2 ^ 8 % 256 := hb 10 (by omega)
  have e11 : byteAt (e.toBytes ++ extra) 11 = e.ttl % 256 := hb 11 (by omega)
  have e12 : byteAt (e.toBytes ++ extra) 12 = e.minorVersion / 2 ^ 24 % 256 :=
    hb 12 (by omega)
  have e13 : byteAt (e.toBytes ++ extra) 13 = e.minorVersion / 2 ^ 16 % 256 :=
    hb 13 (by omega)
  have e14 : byteAt (e.toBytes ++ extra) 14 = e.minorVersion / 2 ^ 8 % 256 :=
    hb 14 (by omega)
  have e15 : byteAt (e.toBytes ++ extra) 15 = e.minorVersion % 256 := hb 15 (by omega)
  have p1 : byteAt (e.toBytes ++ extra) 3 / 16 % 16 = e.numOptions1 := by
    rw [e3]; exact nibble_hi _ _ hn1 hn2
  have p2 : byteAt (e.toBytes ++ extra) 3 % 16 = e.numOptions2 := by
    rw [e3]; exact nibble_lo _ _ hn2
  have pttl : u32be 0 (byteAt (e.toBytes ++ extra) 9) (byteAt (e.toBytes ++ extra) 10)
      (byteAt (e.toBytes ++ extra) 11) = e.ttl := by
    rw [e9, e10, e11]
    exact u32be_ttl _ httl
  unfold fromBytes
  rw [if_neg hlen]
  simp only [e0, EntryType.fromU8_toU8_entryType, hk, Bool.not_true, Bool.false_eq_true,
    if_false, ite_false, e1, e2, p1, p2, e4, e5, u16be_split _ hsid, e6, e7,
    u16be_split _ hiid, e8, pttl, e12, e13, e14, e15, u32be_split _ hmn]

/-- Decoding the encoding of a wellformed eventgroup entry succeeds for any
trailing bytes. -/
theorem EventgroupEntry.fromBytes_toBytes_append_eventgroup (e : EventgroupEntry)
    (extra : List Byte) (hw : e.wf) :
    EventgroupEntry.fromBytes (e.toBytes ++ extra) = .ok e := by
  obtain ⟨hk, hi1, hi2, hn1, hn2, hsid, hiid, hmj, httl, hcnt, hev⟩ := hw
  have hlen : ¬ (e.toBytes ++ extra).length < 16 := by
    rw [List.length_append, e.toBytes_length_eventgroup]; omega
  have hb : ∀ i, i < 16 → byteAt (e.toBytes ++ extra) i = byteAt e.toBytes i := by
    intro i hi
    exact byteAt_append_left _ _ _ (by rw [e.toBytes_length_eventgroup]; omega)
  have e0 : byteAt (e.toBytes ++ extra) 0 = e.entryType.toU8 := hb 0 (by omega)
  have e1 : byteAt (e.toBytes ++ extra) 1 = e.indexFirstOption := hb 1 (by omega)
  have e2 : byteAt (e.toBytes ++ extra) 2 = e.indexSecondOption := hb 2 (by omega)
  have e3 : byteAt (e.toBytes ++ extra) 3 =
      e.numOptions1 % 16 * 16 + e.numOptions2 % 16 := hb 3 (by omega)
  have e4 : byteAt (e.toBytes ++ extra) 4 = e.serviceId / 256 % 256 := hb 4 (by omega)
  have e5 : byteAt (e.toBytes ++ extra) 5 = e.serviceId % 256 := hb 5 (by omega)
  have e6 : byteAt (e.toBytes ++ extra) 6 = e.instanceId / 256 % 256 := hb 6 (by omega)
  have e7 : byteAt (e.toBytes ++ extra) 7 = e.instanceId % 256 := hb 7 (by omega)
  have e8 : byteAt (e.toBytes ++ extra) 8 = e.majorVersion := hb 8 (by omega)
  have e9 : byteAt (e.toBytes ++ extra) 9 = e.ttl / 2 ^ 16 % 256 := hb 9 (by omega)
  have e10 : byteAt (e.toBytes ++ extra) 10 = e.ttl / 2 ^ 8 % 256 := hb 10 (by omega)
  have e11 : byteAt (e.toBytes ++ extra) 11 = e.ttl % 256 := hb 11 (by omega)
  have e12 : byteAt (e.toBytes ++ extra) 12 = e.counter % 16 := hb 12 (by omega)
  have e14 : byteAt (e.toBytes ++ extra) 14 = e.eventgroupId / 256 % 256 :=
    hb 14 (by omega)
  have e15 : byteAt (e.toBytes ++ extra) 15 = e.eventgroupId % 256 := hb 15 (by omega)
  have p1 : byteAt (e.toBytes ++ extra) 3 / 16 % 16 = e.numOptions1 := by
    rw [e3]; exact nibble_hi _ _ hn1 hn2
  have p2 : byteAt (e.toBytes ++ extra) 3 % 16 = e.numOptions2 := by
    rw [e3]; exact nibble_lo _ _ hn2
  have pcnt : byteAt (e.toBytes ++ extra) 12 % 16 = e.counter := by
    rw [e12]; exact mod16_mod16 _ hcnt
  have pttl : u32be 0 (byteAt (e.toBytes ++ extra) 9) (byteAt (e.toBytes ++ extra) 10)
      (byteAt (e.toBytes ++ extra) 11) = e.ttl := by
    rw [e9, e10, e11]
    exact u32be_ttl _ httl
  unfold fromBytes
  rw [if_neg hlen]
  simp only [e0, EntryType.fromU8_toU8_entryType, hk, Bool.not_true, Bool.false_eq_true,
    if_false, ite_false, e1, e2, p1, p2, e4, e5, u16be_split _ hsid, e6, e7,
    u16be_split _ hiid, e8, pttl, pcnt, e14, e15, u16be_split _ hev]

/-- Decoding the encoding of a wellformed SD entry succeeds for any trailing
bytes. -/
theorem SdEntry.fromBytes_toBytes_append_sdentry (e : SdEntry) (extra : List Byte)
    (hw : e.wf) : SdEntry.fromBytes (e.toBytes ++ extra) = .ok e := by
  cases e with
  | Service se =>
    have hk : se.entryType.isServiceEntry = true := hw.1
    have hne : ¬ ((SdEntry.Service se).toBytes ++ extra).length = 0 := by
      rw [List.length_append, SdEntry.toBytes_length_sdentry]; omega
    have e0 : byteAt ((SdEntry.Service se).toBytes ++ extra) 0 = se.entryType.toU8 :=
      byteAt_append_left _ _ _ (by rw [SdEntry.toBytes_length_sdentry]; omega)
    unfold fromBytes
    rw [if_neg hne]
    simp only [e0, EntryType.fromU8_toU8_entryType, hk, ite_true, if_true]
    rw [show (SdEntry.Service se).toBytes = se.toBytes from rfl,
      ServiceEntry.fromBytes_toBytes_append_service se extra hw, except_bind_ok]
  | Eventgroup ge =>
    have hk : ge.entryType.isEventgroupEntry = true := hw.1
    have hks : ge.entryType.isServiceEntry = false := by
      cases h : ge.entryType <;> simp_all [EntryType.isEventgroupEntry,
        EntryType.isServiceEntry]
    have hne : ¬ ((SdEntry.Eventgroup ge).toBytes ++ extra).length = 0 := by
      rw [List.length_append, SdEntry.toBytes_length_sdentry]; omega
    have e0 : byteAt ((SdEntry.Eventgroup ge).toBytes ++ extra) 0 =
        ge.entryType.toU8 :=
      byteAt_append_left _ _ _ (by rw [SdEntry.toBytes_length_sdentry]; omega)
    unfold fromBytes
    rw [if_neg hne]
    simp only [e0, EntryType.fromU8_toU8_entryType, hk, hks, Bool.false_eq_true, if_false,
      ite_false, ite_true, if_true]
    rw [show (SdEntry.Eventgroup ge).toBytes = ge.toBytes from rfl,
      EventgroupEntry.fromBytes_toBytes_append_eventgroup ge extra hw, except_bind_ok]

/-- Decoding the encoding of a wellformed IPv4 endpoint option payload
succeeds. -/
theorem IPv4EndpointOption.fromBytes_toBytes_ipv4 (o : IPv4EndpointOption)
    (hw : o.wf) : IPv4EndpointOption.fromBytes o.toBytes = .ok o := by
  obtain ⟨h0, h1, h2, h3, hp⟩ := hw
  have hlen : ¬ o.toBytes.length < 9 := by
    rw [show o.toBytes.length = 9 from rfl]; omega
  have e5 : byteAt o.toBytes 5 = o.protocol.toU8 := rfl
  have e6 : byteAt o.toBytes 6 = o.port / 256 % 256 := rfl
  have e7 : byteAt o.toBytes 7 = o.port % 256 := rfl
  unfold fromBytes
  rw [if_neg hlen]
  simp only [e5, TransportProtocol.fromU8_toU8_protocol, e6, e7, u16be_split _ hp]
  exact congrArg Except.ok (by cases o; rfl)

/-- Decoding the encoding of a wellformed IPv6 endpoint option payload
succeeds. -/
theorem IPv6EndpointOption.fromBytes_toBytes_ipv6 (o : IPv6EndpointOption)
    (hw : o.wf) : IPv6EndpointOption.fromBytes o.toBytes = .ok o := by
  obtain ⟨ha, hp⟩ := hw
  have hsplit : o.toBytes =
      o.address ++ ([0, o.protocol.toU8] ++ (u16bytes o.port ++ [0])) := by
    simp [toBytes, List.append_assoc]
  have htb : o.toBytes.length = 21 := by
    rw [hsplit]
    simp [u16bytes, ha]
  have hlen : ¬ o.toBytes.length < 21 := by omega
  have htake16 : o.toBytes.take 16 = o.address := by
    rw [hsplit, ← ha, List.take_left]
  have e17 : byteAt o.toBytes 17 = o.protocol.toU8 := by
    rw [hsplit, byteAt_append_right _ _ _ (by rw [ha]; omega), ha]
    rfl
  have e18 : byteAt o.toBytes 18 = o.port / 256 % 256 := by
    rw [hsplit, byteAt_append_right _ _ _ (by rw [ha]; omega), ha]
    rfl
  have e19 : byteAt o.toBytes 19 = o.port % 256 := by
    rw [hsplit, byteAt_append_right _ _ _ (by rw [ha]; omega), ha]
    rfl
  unfold fromBytes
  rw [if_neg hlen]
  simp only [e17, TransportProtocol.fromU8_toU8_protocol, htake16, e18, e19,
    u16be_split _ hp]

/-- Decoding the encoding of a wellformed configuration option payload
succeeds. -/
theorem ConfigurationOption.fromBytes_toBytes_config (o : ConfigurationOption)
    (hw : o.wf) : ConfigurationOption.fromBytes o.configBytes = .ok o := by
  have hw2 : validUtf8 o.configBytes = true := hw
  unfold fromBytes
  rw [if_pos hw2]

/-- Every serialized SD option is at least the 4-byte option header. -/
theorem SdOption.four_le_toBytes_length (o : SdOption) : 4 ≤ o.toBytes.length := by
  cases o <;> simp [SdOption.toBytes, u16bytes]

/-- Decoding the encoding of a wellformed SD option succeeds for any
trailing bytes, consuming exactly the option's wire size. -/
theorem SdOption.fromBytes_toBytes_append_sdoption (o : SdOption) (extra : List Byte)
    (hw : o.wf) :
    SdOption.fromBytes (o.toBytes ++ extra) = .ok (o, o.toBytes.length) := by
  cases o with
  | IPv4Endpoint p =>
    have hptb : p.toBytes.length = 9 := by
      simp [IPv4EndpointOption.toBytes, u16bytes]
    have htbl : (SdOption.IPv4Endpoint p).toBytes.length = 4 + p.toBytes.length := by
      simp [SdOption.toBytes, u16bytes]
      omega
    have hlen4 : ¬ ((SdOption.IPv4Endpoint p).toBytes ++ extra).length < 4 := by
      rw [List.length_append, htbl]; omega
    have heq : u16be (byteAt ((SdOption.IPv4Endpoint p).toBytes ++ extra) 0)
        (byteAt ((SdOption.IPv4Endpoint p).toBytes ++ extra) 1) = 9 := by
      show u16be (p.toBytes.length / 256 % 256) (p.toBytes.length % 256) = 9
      rw [hptb]
      rfl
    have e2 : byteAt ((SdOption.IPv4Endpoint p).toBytes ++ extra) 2 =
        OptionType.IPv4Endpoint.toU8 := rfl
    have hts : ¬ ((SdOption.IPv4Endpoint p).toBytes ++ extra).length < 4 + 9 := by
      rw [List.length_append, htbl, hptb]; omega
    have hdrop : ((SdOption.IPv4Endpoint p).toBytes ++ extra).drop 4 =
        p.toBytes ++ extra := rfl
    have htake : (p.toBytes ++ extra).take 9 = p.toBytes := by
      rw [← hptb, List.take_left]
    have hsz : (4 : Nat) + 9 = (SdOption.IPv4Endpoint p).toBytes.length := by
      rw [htbl, hptb]
    unfold fromBytes
    rw [if_neg hlen4]
    simp only [heq, e2, OptionType.fromU8_toU8_optionType, hts, if_false, ite_false,
      hdrop, htake, IPv4EndpointOption.fromBytes_toBytes_ipv4 p hw, except_bind_ok]
    rw [← hsz]
  | IPv4Multicast p =>
    have hptb : p.toBytes.length = 9 := by
      simp [IPv4EndpointOption.toBytes, u16bytes]
    have htbl : (SdOption.IPv4Multicast p).toBytes.length =
        4 + p.toBytes.length := by
      simp [SdOption.toBytes, u16bytes]
      omega
    have hlen4 : ¬ ((SdOption.IPv4Multicast p).toBytes ++ extra).length < 4 := by
      rw [List.length_append, htbl]; omega
    have heq : u16be (byteAt ((SdOption.IPv4Multicast p).toBytes ++ extra) 0)
        (byteAt ((SdOption.IPv4Multicast p).toBytes ++ extra) 1) = 9 := by
      show u16be (p.toBytes.length / 256 % 256) (p.toBytes.length % 256) = 9
      rw [hptb]
      rfl
    have e2 : byteAt ((SdOption.IPv4Multicast p).toBytes ++ extra) 2 =
        OptionType.IPv4Multicast.toU8 := rfl
    have hts : ¬ ((SdOption.IPv4Multicast p).toBytes ++ extra).length < 4 + 9 := by
      rw [List.length_append, htbl, hptb]; omega
    have hdrop : ((SdOption.IPv4Multicast p).toBytes ++ extra).drop 4 =
        p.toBytes ++ extra := rfl
    have htake : (p.toBytes ++ extra).take 9 = p.toBytes := by
      rw [← hptb, List.take_left]
    have hsz : (4 : Nat) + 9 = (SdOption.IPv4Multicast p).toBytes.length := by
      rw [htbl, hptb]
    unfold fromBytes
    rw [if_neg hlen4]
    simp only [heq, e2, OptionType.fromU8_toU8_optionType, hts, if_false, ite_false,
      hdrop, htake, IPv4EndpointOption.fromBytes_toBytes_ipv4 p hw, except_bind_ok]
    rw [← hsz]
  | IPv6Endpoint p =>
    have ha : p.address.length = 16 := hw.1
    have hptb : p.toBytes.length = 21 := by
      simp [IPv6EndpointOption.toBytes, u16bytes, ha]
    have htbl : (SdOption.IPv6Endpoint p).toBytes.length = 4 + p.toBytes.length := by
      simp [SdOption.toBytes, u16bytes]
      omega
    have hlen4 : ¬ ((SdOption.IPv6Endpoint p).toBytes ++ extra).length < 4 := by
      rw [List.length_append, htbl]; omega
    have heq : u16be (byteAt ((SdOption.IPv6Endpoint p).toBytes ++ extra) 0)
        (byteAt ((SdOption.IPv6Endpoint p).toBytes ++ extra) 1) = 21 := by
      show u16be (p.toBytes.length / 256 % 256) (p.toBytes.length % 256) = 21
      rw [hptb]
      rfl
    have e2 : byteAt ((SdOption.IPv6Endpoint p).toBytes ++ extra) 2 =
        OptionType.IPv6Endpoint.toU8 := rfl
    have hts : ¬ ((SdOption.IPv6Endpoint p).toBytes ++ extra).length < 4 + 21 := by
      rw [List.length_append, htbl, hptb]; omega
    have hdrop : ((SdOption.IPv6Endpoint p).toBytes ++ extra).drop 4 =
        p.toBytes ++ extra := rfl
    have htake : (p.toBytes ++ extra).take 21 = p.toBytes := by
      rw [← hptb, List.take_left]
    have hsz : (4 : Nat) + 21 = (SdOption.IPv6Endpoint p).toBytes.length := by
      rw [htbl, hptb]
    unfold fromBytes
    rw [if_neg hlen4]
    simp only [heq, e2, OptionType.fromU8_toU8_optionType, hts, if_false, ite_false,
      hdrop, htake, IPv6EndpointOption.fromBytes_toBytes_ipv6 p hw, except_bind_ok]
    rw [← hsz]
  | IPv6Multicast p =>
    have ha : p.address.length = 16 := hw.1
    have hptb : p.toBytes.length = 21 := by
      simp [IPv6EndpointOption.toBytes, u16bytes, ha]
    have htbl : (SdOption.IPv6Multicast p).toBytes.length =
        4 + p.toBytes.length := by
      simp [SdOption.toBytes, u16bytes]
      omega
    have hlen4 : ¬ ((SdOption.IPv6Multicast p).toBytes ++ extra).length < 4 := by
      rw [List.length_append, htbl]; omega
    have heq : u16be (byteAt ((SdOption.IPv6Multicast p).toBytes ++ extra) 0)
        (byteAt ((SdOption.IPv6Multicast p).toBytes ++ extra) 1) = 21 := by
      show u16be (p.toBytes.length / 256 % 256) (p.toBytes.length % 256) = 21
      rw [hptb]
      rfl
    have e2 : byteAt ((SdOption.IPv6Multicast p).toBytes ++ extra) 2 =
        OptionType.IPv6Multicast.toU8 := rfl
    have hts : ¬ ((SdOption.IPv6Multicast p).toBytes ++ extra).length <
        4 + 21 := by
      rw [List.length_append, htbl, hptb]; omega
    have hdrop : ((SdOption.IPv6Multicast p).toBytes ++ extra).drop 4 =
        p.toBytes ++ extra := rfl
    have htake : (p.toBytes ++ extra).take 21 = p.toBytes := by
      rw [← hptb, List.take_left]
    have hsz : (4 : Nat) + 21 = (SdOption.IPv6Multicast p).toBytes.length := by
      rw [htbl, hptb]
    unfold fromBytes
    rw [if_neg hlen4]
    simp only [heq, e2, OptionType.fromU8_toU8_optionType, hts, if_false, ite_false,
      hdrop, htake, IPv6EndpointOption.fromBytes_toBytes_ipv6 p hw, except_bind_ok]
    rw [← hsz]
  | Configuration c =>
    obtain ⟨hu, hL⟩ := hw
    have htbl : (SdOption.Configuration c).toBytes.length =
        4 + c.configBytes.length := by
      simp [SdOption.toBytes, ConfigurationOption.toBytes, u16bytes]
      omega
    have hlen4 : ¬ ((SdOption.Configuration c).toBytes ++ extra).length < 4 := by
      rw [List.length_append, htbl]; omega
    have heq : u16be (byteAt ((SdOption.Configuration c).toBytes ++ extra) 0)
        (byteAt ((SdOption.Configuration c).toBytes ++ extra) 1) =
        c.configBytes.length := by
      show u16be (c.configBytes.length / 256 % 256) (c.configBytes.length % 256) =
        c.configBytes.length
      exact u16be_split _ hL
    have e2 : byteAt ((SdOption.Configuration c).toBytes ++ extra) 2 =
        OptionType.Configuration.toU8 := rfl
    have hts : ¬ ((SdOption.Configuration c).toBytes ++ extra).length <
        4 + c.configBytes.length := by
      rw [List.length_append, htbl]; omega
    have hdrop : ((SdOption.Configuration c).toBytes ++ extra).drop 4 =
        c.configBytes ++ extra := rfl
    have htake : (c.configBytes ++ extra).take c.configBytes.length =
        c.configBytes := List.take_left _ _
    have hsz : 4 + c.configBytes.length =
        (SdOption.Configuration c).toBytes.length := htbl.symm
    unfold fromBytes
    rw [if_neg hlen4]
    simp only [heq, e2, OptionType.fromU8_toU8_optionType, hts, if_false, ite_false,
      hdrop, htake, ConfigurationOption.fromBytes_toBytes_config c hu, except_bind_ok]
    rw [← hsz]
  | Unknown ty d =>
    obtain ⟨hty, hd, hcase⟩ := hw
    have htbl : (SdOption.Unknown ty d).toBytes.length = 4 + d.length := by
      simp [SdOption.toBytes, u16bytes]
      omega
    have hlen4 : ¬ ((SdOption.Unknown ty d).toBytes ++ extra).length < 4 := by
      rw [List.length_append, htbl]; omega
    have heq : u16be (byteAt ((SdOption.Unknown ty d).toBytes ++ extra) 0)
        (byteAt ((SdOption.Unknown ty d).toBytes ++ extra) 1) = d.length := by
      show u16be (d.length / 256 % 256) (d.length % 256) = d.length
      exact u16be_split _ hd
    have e2 : byteAt ((SdOption.Unknown ty d).toBytes ++ extra) 2 = ty := by
      show ty % 256 = ty
      omega
    have hts : ¬ ((SdOption.Unknown ty d).toBytes ++ extra).length <
        4 + d.length := by
      rw [List.length_append, htbl]; omega
    have hdrop : ((SdOption.Unknown ty d).toBytes ++ extra).drop 4 =
        d ++ extra := rfl
    have htake : (d ++ extra).take d.length = d := List.take_left _ _
    have hsz : 4 + d.length = (SdOption.Unknown ty d).toBytes.length := htbl.symm
    unfold fromBytes
    rw [if_neg hlen4]
    rcases hcase with hc | hc | hc | hc <;>
      simp only [heq, e2, hc, hts, if_false, ite_false, hdrop, htake] <;>
      rw [← hsz]

/-- The entry-parsing loop decodes a concatenation of wellformed entry
encodings back to the entry list, given fuel at least the entry count. -/
theorem parseEntriesLoop_flatten (es : List SdEntry) (fuel : Nat)
    (hw : ∀ e ∈ es, e.wf) (hf : es.length ≤ fuel) :
    parseEntriesLoop fuel ((es.map SdEntry.toBytes).flatten) = .ok es := by
  induction es generalizing fuel with
  | nil =>
    cases fuel <;> simp [parseEntriesLoop]
  | cons e rest ih =>
    obtain ⟨f, rfl⟩ : ∃ f, fuel = f + 1 :=
      ⟨fuel - 1, by simp at hf; omega⟩
    have hflat : ((e :: rest).map SdEntry.toBytes).flatten =
        e.toBytes ++ (rest.map SdEntry.toBytes).flatten := by
      simp
    rw [hflat]
    have hlen16 : 16 ≤ (e.toBytes ++ (rest.map SdEntry.toBytes).flatten).length := by
      rw [List.length_append, e.toBytes_length_sdentry]; omega
    have hdrop : (e.toBytes ++ (rest.map SdEntry.toBytes).flatten).drop 16 =
        (rest.map SdEntry.toBytes).flatten := by
      rw [← e.toBytes_length_sdentry, List.drop_left]
    show (if 16 ≤ (e.toBytes ++ (rest.map SdEntry.toBytes).flatten).length then
        Except.bind (SdEntry.fromBytes (e.toBytes ++ (rest.map SdEntry.toBytes).flatten))
          fun en => Except.bind (parseEntriesLoop f
            ((e.toBytes ++ (rest.map SdEntry.toBytes).flatten).drop 16))
            fun r => .ok (en :: r)
      else .ok []) = .ok (e :: rest)
    rw [if_pos hlen16,
      SdEntry.fromBytes_toBytes_append_sdentry e _ (hw e (List.mem_cons_self e rest)),
      except_bind_ok, hdrop,
      ih f (fun x hx => hw x (List.mem_cons_of_mem e hx)) (by simp at hf; omega),
      except_bind_ok]

/-- The option-parsing loop decodes a concatenation of wellformed option
encodings back to the option list, given fuel at least the total byte
count, when the remaining-bytes counter equals that count. -/
theorem parseOptionsLoop_flatten (os : List SdOption) (fuel : Nat)
    (hw : ∀ o ∈ os, o.wf)
    (hf : (os.map fun o => o.toBytes.length).sum ≤ fuel) :
    parseOptionsLoop fuel ((os.map SdOption.toBytes).flatten)
      ((os.map fun o => o.toBytes.length).sum) = .ok os := by
  induction os generalizing fuel with
  | nil =>
    show parseOptionsLoop fuel [] 0 = .ok []
    cases fuel <;> rfl
  | cons o rest ih =>
    have h4 : 4 ≤ o.toBytes.length := o.four_le_toBytes_length
    have hsum : ((o :: rest).map fun x => x.toBytes.length).sum =
        o.toBytes.length + ((rest.map fun x => x.toBytes.length).sum) := by
      simp
    rw [hsum] at hf ⊢
    obtain ⟨f, rfl⟩ : ∃ f, fuel = f + 1 := ⟨fuel - 1, by omega⟩
    obtain ⟨r, hr⟩ : ∃ r, o.toBytes.length +
        ((rest.map fun x => x.toBytes.length).sum) = r + 1 :=
      ⟨o.toBytes.length + ((rest.map fun x => x.toBytes.length).sum) - 1, by omega⟩
    have hflat : ((o :: rest).map SdOption.toBytes).flatten =
        o.toBytes ++ (rest.map SdOption.toBytes).flatten := by
      simp
    rw [hflat, hr]
    show Except.bind (SdOption.fromBytes
        (o.toBytes ++ (rest.map SdOption.toBytes).flatten)) (fun x =>
      Except.bind (parseOptionsLoop f
          ((o.toBytes ++ (rest.map SdOption.toBytes).flatten).drop x.2)
          (r + 1 - x.2))
        fun y => .ok (x.1 :: y)) = .ok (o :: rest)
    rw [SdOption.fromBytes_toBytes_append_sdoption o _ (hw o (List.mem_cons_self o rest)),
      except_bind_ok, List.drop_left,
      show r + 1 - o.toBytes.length = (rest.map fun x => x.toBytes.length).sum
        from by omega,
      ih f (fun x hx => hw x (List.mem_cons_of_mem o hx)) (by omega),
      except_bind_ok]

/-- The concatenated entry encodings occupy 16 bytes per entry. -/
theorem entries_flatten_length (es : List SdEntry) :
    (es.map SdEntry.toBytes).flatten.length = es.length * 16 := by
  induction es with
  | nil => simp
  | cons e rest ih =>
    simp only [List.map_cons, List.flatten_cons, List.length_append, ih,
      SdEntry.toBytes_length_sdentry e, List.length_cons]
    ring

/-- The concatenated option encodings occupy the sum of the option wire
sizes. -/
theorem options_flatten_length (os : List SdOption) :
    (os.map SdOption.toBytes).flatten.length =
      (os.map fun o => o.toBytes.length).sum := by
  induction os with
  | nil => simp
  | cons o rest ih => simp [ih]

/-- C7 (amended): for every SD message whose entries are wellformed for
their wire widths and whose options are wellformed — payload widths fit,
and `Unknown` options carry a type byte the decoder does not interpret —
serialization followed by parsing recovers the message exactly, flags,
entries and options included. -/
theorem sd_message_roundtrip (s : SdMessage) (hw : s.wf) :
    SdMessage.fromBytes s.toBytes = .ok s := by
  obtain ⟨hwE, hwO, hn32, hS32⟩ := hw
  have hEflat : (s.entries.map SdEntry.toBytes).flatten.length =
      s.entries.length * 16 := entries_flatten_length s.entries
  have hOflat : (s.options.map SdOption.toBytes).flatten.length =
      (s.options.map fun o => o.toBytes.length).sum :=
    options_flatten_length s.options
  have hlenTB : (SdMessage.toBytes s).length =
      12 + s.entries.length * 16 + (s.options.map fun o => o.toBytes.length).sum := by
    show ((([s.flags.toU8, 0, 0, 0] ++ u32bytes (s.entries.length * 16) ++
      (s.entries.map SdEntry.toBytes).flatten) ++
      u32bytes ((s.options.map fun o => o.toBytes.length).sum)) ++
      (s.options.map SdOption.toBytes).flatten).length = _
    simp only [List.length_append, hEflat, hOflat]
    simp [u32bytes] <;> omega
  have h12 : ¬ (SdMessage.toBytes s).length < 12 := by
    rw [hlenTB]; omega
  have e0 : byteAt (SdMessage.toBytes s) 0 = s.flags.toU8 := rfl
  have hEL : u32be (byteAt (SdMessage.toBytes s) 4) (byteAt (SdMessage.toBytes s) 5)
      (byteAt (SdMessage.toBytes s) 6) (byteAt (SdMessage.toBytes s) 7) =
      s.entries.length * 16 := by
    show u32be (s.entries.length * 16 / 2 ^ 24 % 256)
      (s.entries.length * 16 / 2 ^ 16 % 256) (s.entries.length * 16 / 2 ^ 8 % 256)
      (s.entries.length * 16 % 256) = s.entries.length * 16
    exact u32be_split _ hn32
  have hlen2 : ¬ (SdMessage.toBytes s).length <
      8 + s.entries.length * 16 + 4 := by
    rw [hlenTB]; omega
  have hED : ((SdMessage.toBytes s).drop 8).take (s.entries.length * 16) =
      (s.entries.map SdEntry.toBytes).flatten := by
    rw [show (SdMessage.toBytes s).drop 8 =
      ((s.entries.map SdEntry.toBytes).flatten ++
        u32bytes ((s.options.map fun o => o.toBytes.length).sum)) ++
        (s.options.map SdOption.toBytes).flatten from rfl]
    rw [List.append_assoc, ← hEflat, List.take_left]
  have hparseE : parseEntriesLoop (s.entries.length * 16)
      ((s.entries.map SdEntry.toBytes).flatten) = .ok s.entries :=
    parseEntriesLoop_flatten s.entries (s.entries.length * 16) hwE (by omega)
  have hAB : SdMessage.toBytes s =
      ([s.flags.toU8, 0, 0, 0] ++ u32bytes (s.entries.length * 16) ++
        (s.entries.map SdEntry.toBytes).flatten) ++
      (u32bytes ((s.options.map fun o => o.toBytes.length).sum) ++
        (s.options.map SdOption.toBytes).flatten) := by
    show (([s.flags.toU8, 0, 0, 0] ++ u32bytes (s.entries.length * 16) ++
      (s.entries.map SdEntry.toBytes).flatten) ++
      u32bytes ((s.options.map fun o => o.toBytes.length).sum)) ++
      (s.options.map SdOption.toBytes).flatten = _
    rw [List.append_assoc]
  have hAlen : ([s.flags.toU8, 0, 0, 0] ++ u32bytes (s.entries.length * 16) ++
      (s.entries.map SdEntry.toBytes).flatten).length =
      8 + s.entries.length * 16 := by
    simp only [List.length_append, hEflat]
    simp [u32bytes] <;> omega
  have hoB : ∀ i, byteAt (SdMessage.toBytes s) (8 + s.entries.length * 16 + i) =
      byteAt (u32bytes ((s.options.map fun o => o.toBytes.length).sum) ++
        (s.options.map SdOption.toBytes).flatten) i := by
    intro i
    rw [hAB, byteAt_append_right _ _ _ (by rw [hAlen]; omega), hAlen]
    rw [show 8 + s.entries.length * 16 + i - (8 + s.entries.length * 16) = i
      from by omega]
  have ho0 : byteAt (SdMessage.toBytes s) (8 + s.entries.length * 16) =
      (s.options.map fun o => o.toBytes.length).sum / 2 ^ 24 % 256 := by
    have h := hoB 0
    rw [Nat.add_zero] at h
    rw [h]
    rfl
  have ho1 : byteAt (SdMessage.toBytes s) (8 + s.entries.length * 16 + 1) =
      (s.options.map fun o => o.toBytes.length).sum / 2 ^ 16 % 256 := by
    rw [hoB 1]
    rfl
  have ho2 : byteAt (SdMessage.toBytes s) (8 + s.entries.length * 16 + 2) =
      (s.options.map fun o => o.toBytes.length).sum / 2 ^ 8 % 256 := by
    rw [hoB 2]
    rfl
  have ho3 : byteAt (SdMessage.toBytes s) (8 + s.entries.length * 16 + 3) =
      (s.options.map fun o => o.toBytes.length).sum % 256 := by
    rw [hoB 3]
    rfl
  have hOL : u32be (byteAt (SdMessage.toBytes s) (8 + s.entries.length * 16))
      (byteAt (SdMessage.toBytes s) (8 + s.entries.length * 16 + 1))
      (byteAt (SdMessage.toBytes s) (8 + s.entries.length * 16 + 2))
      (byteAt (SdMessage.toBytes s) (8 + s.entries.length * 16 + 3)) =
      (s.options.map fun o => o.toBytes.length).sum := by
    rw [ho0, ho1, ho2, ho3]
    exact u32be_split _ hS32
  have hdropO : (SdMessage.toBytes s).drop (8 + s.entries.length * 16 + 4) =
      (s.options.map SdOption.toBytes).flatten := by
    have hClen : (([s.flags.toU8, 0, 0, 0] ++ u32bytes (s.entries.length * 16) ++
        (s.entries.map SdEntry.toBytes).flatten) ++
        u32bytes ((s.options.map fun o => o.toBytes.length).sum)).length =
        8 + s.entries.length * 16 + 4 := by
      rw [List.length_append, hAlen]
      simp [u32bytes]
    rw [show SdMessage.toBytes s =
      (([s.flags.toU8, 0, 0, 0] ++ u32bytes (s.entries.length * 16) ++
        (s.entries.map SdEntry.toBytes).flatten) ++
        u32bytes ((s.options.map fun o => o.toBytes.length).sum)) ++
      (s.options.map SdOption.toBytes).flatten from rfl]
    rw [← hClen, List.drop_left]
  have hOlt : ¬ (s.options.map SdOption.toBytes).flatten.length <
      (s.options.map fun o => o.toBytes.length).sum := by
    rw [hOflat]
    omega
  have hparseO : parseOptionsLoop ((s.options.map fun o => o.toBytes.length).sum)
      ((s.options.map SdOption.toBytes).flatten)
      ((s.options.map fun o => o.toBytes.length).sum) = .ok s.options :=
    parseOptionsLoop_flatten s.options _ hwO (le_refl _)
  unfold SdMessage.fromBytes
  rw [if_neg h12]
  simp only [e0, SdFlags.fromU8_toU8_flags, hEL, eq_false hlen2, if_false, ite_false,
    hED, hparseE, except_bind_ok, hOL, hdropO, eq_false hOlt, hparseO]

/-- Witness for C7 at a concrete SD message carrying both entry kinds and
all option kinds, including a preserved `Unknown` option of an
uninterpreted type byte. -/
theorem sd_message_roundtrip_witness :
    SdMessage.wf sdSampleMessage ∧
    SdMessage.fromBytes (SdMessage.toBytes sdSampleMessage) =
      .ok sdSampleMessage :=
  ⟨by decide, sd_message_roundtrip sdSampleMessage (by decide)⟩

/-- Counterexample to C7 as frozen: an `Unknown` option whose type byte is
0x04 (the IPv4 endpoint option type) is reparsed as an `IPv4Endpoint`
option, so the round-trip does not preserve it even though every entry
field fits its wire width (the entry list is empty). -/
theorem sd_message_roundtrip_counterexample :
    SdMessage.fromBytes (SdMessage.toBytes sdUnknownClashMessage) =
      .ok { flags := ⟨false, false, false⟩, entries := [],
            options := [SdOption.IPv4Endpoint ⟨192, 168, 1, 100, .Tcp, 30506⟩] } ∧
    sdUnknownClashMessage ≠
      { flags := ⟨false, false, false⟩, entries := [],
        options := [SdOption.IPv4Endpoint ⟨192, 168, 1, 100, .Tcp, 30506⟩] } :=
  ⟨by rfl, by decide⟩

/-- An entry whose first byte is an unknown entry type fails to decode. -/
theorem SdEntry.fromBytes_unknown_type (b : Nat) (tail : List Byte)
    (hb : EntryType.fromU8 b = none) :
    SdEntry.fromBytes (b :: tail) = .error .invalidHeader := by
  unfold fromBytes
  rw [if_neg (by simp)]
  simp only [show byteAt (b :: tail) 0 = b from rfl, hb]

/-- The entry-parsing loop aborts with `InvalidHeader` as soon as it meets
a 16-byte entry with an unknown entry-type byte, even after a prefix of
wellformed entries. -/
theorem parseEntriesLoop_flatten_bad (pre : List SdEntry) (b : Nat)
    (tail : List Byte) (fuel : Nat) (hw : ∀ e ∈ pre, e.wf)
    (hb : EntryType.fromU8 b = none) (ht : tail.length = 15)
    (hf : pre.length + 1 ≤ fuel) :
    parseEntriesLoop fuel ((pre.map SdEntry.toBytes).flatten ++ (b :: tail)) =
      .error .invalidHeader := by
  induction pre generalizing fuel with
  | nil =>
    obtain ⟨f, rfl⟩ : ∃ f, fuel = f + 1 := ⟨fuel - 1, by simp at hf; omega⟩
    rw [show (([] : List SdEntry).map SdEntry.toBytes).flatten ++ (b :: tail) =
      b :: tail from by simp]
    show (if 16 ≤ (b :: tail).length then
        Except.bind (SdEntry.fromBytes (b :: tail))
          fun en => Except.bind (parseEntriesLoop f ((b :: tail).drop 16))
            fun r => .ok (en :: r)
      else .ok []) = .error .invalidHeader
    rw [if_pos (by simp [ht]), SdEntry.fromBytes_unknown_type b tail hb,
      except_bind_error]
  | cons e rest ih =>
    obtain ⟨f, rfl⟩ : ∃ f, fuel = f + 1 := ⟨fuel - 1, by simp at hf; omega⟩
    have hflat : (((e :: rest).map SdEntry.toBytes).flatten ++ (b :: tail)) =
        e.toBytes ++ ((rest.map SdEntry.toBytes).flatten ++ (b :: tail)) := by
      simp
    rw [hflat]
    have hlen16 : 16 ≤ (e.toBytes ++
        ((rest.map SdEntry.toBytes).flatten ++ (b :: tail))).length := by
      rw [List.length_append, e.toBytes_length_sdentry]; omega
    have hdrop : (e.toBytes ++
        ((rest.map SdEntry.toBytes).flatten ++ (b :: tail))).drop 16 =
        (rest.map SdEntry.toBytes).flatten ++ (b :: tail) := by
      rw [← e.toBytes_length_sdentry, List.drop_left]
    show (if 16 ≤ (e.toBytes ++
        ((rest.map SdEntry.toBytes).flatten ++ (b :: tail))).length then
        Except.bind (SdEntry.fromBytes (e.toBytes ++
          ((rest.map SdEntry.toBytes).flatten ++ (b :: tail))))
          fun en => Except.bind (parseEntriesLoop f ((e.toBytes ++
            ((rest.map SdEntry.toBytes).flatten ++ (b :: tail))).drop 16))
            fun r => .ok (en :: r)
      else .ok []) = .error .invalidHeader
    rw [if_pos hlen16,
      SdEntry.fromBytes_toBytes_append_sdentry e _ (hw e (List.mem_cons_self e rest)),
      except_bind_ok, hdrop,
      ih f (fun x hx => hw x (List.mem_cons_of_mem e hx)) (by simp at hf; omega),
      except_bind_error]

/-- C3 (corrected): a single entry with an unknown entry-type byte aborts
decoding of the whole SD datagram with `InvalidHeader`; the wellformed
entries before it are not returned.  Stated for a datagram holding any
wellformed entries followed by one 16-byte entry whose type byte decodes
to no entry type, with an empty options region. -/
theorem sd_unknown_entry_type_fails_message (pre : List SdEntry) (b : Nat)
    (tail : List Byte) (hw : ∀ e ∈ pre, e.wf)
    (hb : EntryType.fromU8 b = none) (ht : tail.length = 15)
    (h32 : (pre.length + 1) * 16 < 2 ^ 32) :
    SdMessage.fromBytes ([0, 0, 0, 0] ++ u32bytes ((pre.length + 1) * 16) ++
      ((pre.map SdEntry.toBytes).flatten ++ (b :: tail)) ++ [0, 0, 0, 0]) =
      .error .invalidHeader := by
  have hFlen : (pre.map SdEntry.toBytes).flatten.length = pre.length * 16 :=
    entries_flatten_length pre
  have hXlen : ((pre.map SdEntry.toBytes).flatten ++ (b :: tail)).length =
      (pre.length + 1) * 16 := by
    rw [List.length_append, hFlen]
    simp [ht]
    ring
  have hlenD : ([0, 0, 0, 0] ++ u32bytes ((pre.length + 1) * 16) ++
      ((pre.map SdEntry.toBytes).flatten ++ (b :: tail)) ++
      [0, 0, 0, 0]).length = 12 + (pre.length + 1) * 16 := by
    simp only [List.length_append, hXlen]
    simp [u32bytes] <;> omega
  have h12 : ¬ ([0, 0, 0, 0] ++ u32bytes ((pre.length + 1) * 16) ++
      ((pre.map SdEntry.toBytes).flatten ++ (b :: tail)) ++
      [0, 0, 0, 0]).length < 12 := by
    rw [hlenD]; omega
  have hEL : u32be
      (byteAt ([0, 0, 0, 0] ++ u32bytes ((pre.length + 1) * 16) ++
        ((pre.map SdEntry.toBytes).flatten ++ (b :: tail)) ++ [0, 0, 0, 0]) 4)
      (byteAt ([0, 0, 0, 0] ++ u32bytes ((pre.length + 1) * 16) ++
        ((pre.map SdEntry.toBytes).flatten ++ (b :: tail)) ++ [0, 0, 0, 0]) 5)
      (byteAt ([0, 0, 0, 0] ++ u32bytes ((pre.length + 1) * 16) ++
        ((pre.map SdEntry.toBytes).flatten ++ (b :: tail)) ++ [0, 0, 0, 0]) 6)
      (byteAt ([0, 0, 0, 0] ++ u32bytes ((pre.length + 1) * 16) ++
        ((pre.map SdEntry.toBytes).flatten ++ (b :: tail)) ++ [0, 0, 0, 0]) 7) =
      (pre.length + 1) * 16 := by
    show u32be ((pre.length + 1) * 16 / 2 ^ 24 % 256)
      ((pre.length + 1) * 16 / 2 ^ 16 % 256) ((pre.length + 1) * 16 / 2 ^ 8 % 256)
      ((pre.length + 1) * 16 % 256) = (pre.length + 1) * 16
    exact u32be_split _ h32
  have hlen2 : ¬ ([0, 0, 0, 0] ++ u32bytes ((pre.length + 1) * 16) ++
      ((pre.map SdEntry.toBytes).flatten ++ (b :: tail)) ++
      [0, 0, 0, 0]).length < 8 + (pre.length + 1) * 16 + 4 := by
    rw [hlenD]; omega
  have hED : (([0, 0, 0, 0] ++ u32bytes ((pre.length + 1) * 16) ++
      ((pre.map SdEntry.toBytes).flatten ++ (b :: tail)) ++
      [0, 0, 0, 0]).drop 8).take ((pre.length + 1) * 16) =
      (pre.map SdEntry.toBytes).flatten ++ (b :: tail) := by
    have hdrop8 : ([0, 0, 0, 0] ++ u32bytes ((pre.length + 1) * 16) ++
        ((pre.map SdEntry.toBytes).flatten ++ (b :: tail)) ++
        [0, 0, 0, 0]).drop 8 =
        ((pre.map SdEntry.toBytes).flatten ++ (b :: tail)) ++ [0, 0, 0, 0] := rfl
    rw [hdrop8, ← hXlen, List.take_left]
  have hbad : parseEntriesLoop ((pre.length + 1) * 16)
      ((pre.map SdEntry.toBytes).flatten ++ (b :: tail)) =
      .error .invalidHeader :=
    parseEntriesLoop_flatten_bad pre b tail ((pre.length + 1) * 16) hw hb ht
      (by omega)
  unfold SdMessage.fromBytes
  rw [if_neg h12]
  simp only [hEL, eq_false hlen2, if_false, ite_false, hED, hbad,
    except_bind_error]

/-- Witness for C3 (corrected) at a concrete datagram: one wellformed
OfferService entry followed by one entry with unknown type byte 0xFF. -/
theorem sd_unknown_entry_type_fails_message_witness :
    (∀ e ∈ [SdEntry.Service
      { entryType := .OfferService, indexFirstOption := 0
        indexSecondOption := 0, numOptions1 := 0, numOptions2 := 0
        serviceId := 5, instanceId := 1, majorVersion := 1
        ttl := 60, minorVersion := 0 }], SdEntry.wf e) ∧
    EntryType.fromU8 255 = none ∧
    (List.replicate 15 0).length = 15 ∧
    SdMessage.fromBytes ([0, 0, 0, 0] ++ u32bytes ((1 + 1) * 16) ++
      (([SdEntry.Service
        { entryType := .OfferService, indexFirstOption := 0
          indexSecondOption := 0, numOptions1 := 0, numOptions2 := 0
          serviceId := 5, instanceId := 1, majorVersion := 1
          ttl := 60, minorVersion := 0 }].map SdEntry.toBytes).flatten ++
        (255 :: List.replicate 15 0)) ++ [0, 0, 0, 0]) =
      .error .invalidHeader :=
  ⟨by decide, by decide, by decide,
    sd_unknown_entry_type_fails_message
      [SdEntry.Service
        { entryType := .OfferService, indexFirstOption := 0
          indexSecondOption := 0, numOptions1 := 0, numOptions2 := 0
          serviceId := 5, instanceId := 1, majorVersion := 1
          ttl := 60, minorVersion := 0 }] 255 (List.replicate 15 0)
      (by decide) (by decide) (by decide) (by decide)⟩

/-- Counterexample to C3 as frozen: a datagram whose entries array holds a
wellformed OfferService entry (its 16 bytes decode on their own) followed
by a 16-byte entry with unknown type byte 0xFF.  The frozen claim says the
enclosing message still parses and returns the wellformed entry; instead
`SdMessage::from_bytes` fails the whole datagram with `InvalidHeader`. -/
theorem sd_unknown_entry_type_counterexample :
    SdEntry.fromBytes [1, 0, 0, 0, 0, 5, 0, 1, 1, 0, 0, 60, 0, 0, 0, 0] =
      .ok (SdEntry.Service
        { entryType := .OfferService, indexFirstOption := 0
          indexSecondOption := 0, numOptions1 := 0, numOptions2 := 0
          serviceId := 5, instanceId := 1, majorVersion := 1
          ttl := 60, minorVersion := 0 }) ∧
    EntryType.fromU8 255 = none ∧
    SdMessage.fromBytes [0, 0, 0, 0, 0, 0, 0, 32,
      1, 0, 0, 0, 0, 5, 0, 1, 1, 0, 0, 60, 0, 0, 0, 0,
      255, 0, 0, 0, 0, 0, 0, 0, 0, 0, 0, 0, 0, 0, 0, 0,
      0, 0, 0, 0] = .error .invalidHeader :=
  ⟨by rfl, by rfl, by rfl⟩

/-- The entry loop ignores a prefix of non-actionable entries. -/
theorem processEntries_skip (s : SdMessage) (src now : Nat)
    (pre l : List SdEntry) (services : ServiceCache)
    (h : ∀ x ∈ pre, isActionable x = false) :
    processEntries s src now (pre ++ l) services =
      processEntries s src now l services := by
  induction pre with
  | nil => rfl
  | cons x rest ih =>
    have hx : isActionable x = false := h x (List.mem_cons_self x rest)
    have hrest : ∀ y ∈ rest, isActionable y = false :=
      fun y hy => h y (List.mem_cons_of_mem x hy)
    rw [List.cons_append]
    cases x with
    | Service se =>
      have hne : se.entryType ≠ .OfferService := by
        simpa [isActionable] using hx
      show (match se.entryType with
        | EntryType.OfferService =>
          if se.ttl = 0 then
            (removeService services (se.serviceId, se.instanceId),
              some (.ServiceUnavailable se.serviceId se.instanceId))
          else
            let info : ServiceInfo :=
              { serviceId := se.serviceId, instanceId := se.instanceId
                majorVersion := se.majorVersion, minorVersion := se.minorVersion
                endpoints := s.get_endpoints_for_entry (.Service se)
                expiresAt := now + se.ttl, sourceAddr := src }
            (insertService services (se.serviceId, se.instanceId) info,
              some (.ServiceAvailable info))
        | _ => processEntries s src now (rest ++ l) services) =
        processEntries s src now l services
      cases hse : se.entryType with
      | OfferService => exact absurd hse hne
      | FindService => exact ih hrest
      | SubscribeEventgroup => exact ih hrest
      | SubscribeEventgroupAck => exact ih hrest
    | Eventgroup ge =>
      have hne : ge.entryType ≠ .SubscribeEventgroupAck := by
        simpa [isActionable] using hx
      show (if ge.entryType = .SubscribeEventgroupAck then _ else
        processEntries s src now (rest ++ l) services) =
        processEntries s src now l services
      rw [if_neg hne]
      exact ih hrest

/-- On an actionable head entry the loop returns without looking at the
remaining entries. -/
theorem processEntries_stop (s : SdMessage) (src now : Nat) (e : SdEntry)
    (post : List SdEntry) (services : ServiceCache)
    (he : isActionable e = true) :
    processEntries s src now (e :: post) services =
      processEntries s src now [e] services := by
  cases e with
  | Service se =>
    have hof : se.entryType = .OfferService := by
      simpa [isActionable] using he
    show (match se.entryType with
      | EntryType.OfferService =>
        if se.ttl = 0 then
          (removeService services (se.serviceId, se.instanceId),
            some (.ServiceUnavailable se.serviceId se.instanceId))
        else
          let info : ServiceInfo :=
            { serviceId := se.serviceId, instanceId := se.instanceId
              majorVersion := se.majorVersion, minorVersion := se.minorVersion
              endpoints := s.get_endpoints_for_entry (.Service se)
              expiresAt := now + se.ttl, sourceAddr := src }
          (insertService services (se.serviceId, se.instanceId) info,
            some (.ServiceAvailable info))
      | _ => processEntries s src now post services) =
      processEntries s src now [SdEntry.Service se] services
    rw [hof]
    show _ = (match se.entryType with
      | EntryType.OfferService =>
        if se.ttl = 0 then
          (removeService services (se.serviceId, se.instanceId),
            some (.ServiceUnavailable se.serviceId se.instanceId))
        else
          let info : ServiceInfo :=
            { serviceId := se.serviceId, instanceId := se.instanceId
              majorVersion := se.majorVersion, minorVersion := se.minorVersion
              endpoints := s.get_endpoints_for_entry (.Service se)
              expiresAt := now + se.ttl, sourceAddr := src }
          (insertService services (se.serviceId, se.instanceId) info,
            some (.ServiceAvailable info))
      | _ => processEntries s src now [] services)
    rw [hof]
  | Eventgroup ge =>
    have hak : ge.entryType = .SubscribeEventgroupAck := by
      simpa [isActionable] using he
    show (if ge.entryType = .SubscribeEventgroupAck then
        (if ge.ttl = 0 then
          (services, some (.SubscriptionNack ge.serviceId ge.instanceId
            ge.eventgroupId))
        else
          (services, some (.SubscriptionAck ge.serviceId ge.instanceId
            ge.eventgroupId
            (s.get_endpoints_for_entry (.Eventgroup ge)).head?)))
      else processEntries s src now post services) =
      processEntries s src now [SdEntry.Eventgroup ge] services
    rw [if_pos hak]
    show _ = (if ge.entryType = .SubscribeEventgroupAck then
        (if ge.ttl = 0 then
          (services, some (.SubscriptionNack ge.serviceId ge.instanceId
            ge.eventgroupId))
        else
          (services, some (.SubscriptionAck ge.serviceId ge.instanceId
            ge.eventgroupId
            (s.get_endpoints_for_entry (.Eventgroup ge)).head?)))
      else processEntries s src now [] services)
    rw [if_pos hak]

/-- C4 (corrected): processing one SD datagram handles only the FIRST
actionable entry — the first OfferService or SubscribeEventgroupAck entry
— and returns its event immediately; entries before it (FindService,
plain SubscribeEventgroup, non-matching kinds) are skipped, and entries
after it, OfferService entries included, are never examined: the result is
the same as if the datagram held only that one entry. -/
theorem sd_client_processes_only_first_actionable (s : SdMessage)
    (data : List Byte) (src now : Nat) (services : ServiceCache)
    (pre : List SdEntry) (e : SdEntry) (post : List SdEntry)
    (hdata : ¬ data.length < 16)
    (hparse : SdMessage.fromBytes (data.drop 16) = .ok s)
    (hentries : s.entries = pre ++ e :: post)
    (hpre : ∀ x ∈ pre, isActionable x = false)
    (he : isActionable e = true) :
    process_message services data src now =
      processEntries s src now [e] services := by
  unfold process_message
  rw [if_neg hdata, hparse]
  show processEntries s src now s.entries services = _
  rw [hentries, processEntries_skip s src now pre (e :: post) services hpre,
    processEntries_stop s src now e post services he]

/-- Witness for C4 at a concrete datagram: a FindService entry (skipped)
followed by two OfferService entries; processing equals handling just the
first OfferService entry. -/
theorem sd_client_processes_only_first_actionable_witness :
    process_message []
      (List.replicate 16 0 ++ SdMessage.toBytes
        { flags := ⟨false, false, false⟩
          entries := [SdEntry.Service
            { entryType := .FindService, indexFirstOption := 0
              indexSecondOption := 0, numOptions1 := 0, numOptions2 := 0
              serviceId := 9, instanceId := 9, majorVersion := 0
              ttl := 0, minorVersion := 0 },
            SdEntry.Service
            { entryType := .OfferService, indexFirstOption := 0
              indexSecondOption := 0, numOptions1 := 0, numOptions2 := 0
              serviceId := 5, instanceId := 1, majorVersion := 1
              ttl := 60, minorVersion := 0 },
            SdEntry.Service
            { entryType := .OfferService, indexFirstOption := 0
              indexSecondOption := 0, numOptions1 := 0, numOptions2 := 0
              serviceId := 6, instanceId := 1, majorVersion := 1
              ttl := 60, minorVersion := 0 }]
          options := [] }) 7 100 =
      processEntries
        { flags := ⟨false, false, false⟩
          entries := [SdEntry.Service
            { entryType := .FindService, indexFirstOption := 0
              indexSecondOption := 0, numOptions1 := 0, numOptions2 := 0
              serviceId := 9, instanceId := 9, majorVersion := 0
              ttl := 0, minorVersion := 0 },
            SdEntry.Service
            { entryType := .OfferService, indexFirstOption := 0
              indexSecondOption := 0, numOptions1 := 0, numOptions2 := 0
              serviceId := 5, instanceId := 1, majorVersion := 1
              ttl := 60, minorVersion := 0 },
            SdEntry.Service
            { entryType := .OfferService, indexFirstOption := 0
              indexSecondOption := 0, numOptions1 := 0, numOptions2 := 0
              serviceId := 6, instanceId := 1, majorVersion := 1
              ttl := 60, minorVersion := 0 }]
          options := [] } 7 100
        [SdEntry.Service
          { entryType := .OfferService, indexFirstOption := 0
            indexSecondOption := 0, numOptions1 := 0, numOptions2 := 0
            serviceId := 5, instanceId := 1, majorVersion := 1
            ttl := 60, minorVersion := 0 }] [] :=
  sd_client_processes_only_first_actionable _ _ 7 100 []
    [SdEntry.Service
      { entryType := .FindService, indexFirstOption := 0
        indexSecondOption := 0, numOptions1 := 0, numOptions2 := 0
        serviceId := 9, instanceId := 9, majorVersion := 0
        ttl := 0, minorVersion := 0 }]
    (SdEntry.Service
      { entryType := .OfferService, indexFirstOption := 0
        indexSecondOption := 0, numOptions1 := 0, numOptions2 := 0
        serviceId := 5, instanceId := 1, majorVersion := 1
        ttl := 60, minorVersion := 0 })
    [SdEntry.Service
      { entryType := .OfferService, indexFirstOption := 0
        indexSecondOption := 0, numOptions1 := 0, numOptions2 := 0
        serviceId := 6, instanceId := 1, majorVersion := 1
        ttl := 60, minorVersion := 0 }]
    (by decide) (by rfl) (by rfl) (by decide) (by decide)

/-- Counterexample to C4 as frozen: a datagram with two OfferService
entries with ttl > 0 for services 5 and 6; the claim says both are
upserted with an event each, but the loop returns after the first — the
resulting cache holds only service 5 and only one event is produced. -/
theorem sd_client_counterexample :
    processEntries
      { flags := ⟨false, false, false⟩
        entries := [SdEntry.Service
          { entryType := .OfferService, indexFirstOption := 0
            indexSecondOption := 0, numOptions1 := 0, numOptions2 := 0
            serviceId := 5, instanceId := 1, majorVersion := 1
            ttl := 60, minorVersion := 0 },
          SdEntry.Service
          { entryType := .OfferService, indexFirstOption := 0
            indexSecondOption := 0, numOptions1 := 0, numOptions2 := 0
            serviceId := 6, instanceId := 1, majorVersion := 1
            ttl := 60, minorVersion := 0 }]
        options := [] } 7 100
      [SdEntry.Service
        { entryType := .OfferService, indexFirstOption := 0
          indexSecondOption := 0, numOptions1 := 0, numOptions2 := 0
          serviceId := 5, instanceId := 1, majorVersion := 1
          ttl := 60, minorVersion := 0 },
        SdEntry.Service
        { entryType := .OfferService, indexFirstOption := 0
          indexSecondOption := 0, numOptions1 := 0, numOptions2 := 0
          serviceId := 6, instanceId := 1, majorVersion := 1
          ttl := 60, minorVersion := 0 }] [] =
      ([((5, 1),
        { serviceId := 5, instanceId := 1, majorVersion := 1
          minorVersion := 0, endpoints := [], expiresAt := 160
          sourceAddr := 7 })],
        some (SdEvent.ServiceAvailable
          { serviceId := 5, instanceId := 1, majorVersion := 1
            minorVersion := 0, endpoints := [], expiresAt := 160
            sourceAddr := 7 })) := by
  rfl

theorem findIdx?_none_of_all {α : Type} (p : α → Bool) :
    ∀ (l : List α), (∀ x ∈ l, p x = false) → ∀ i,
      List.findIdx? p l i = none
  | [], _, _ => rfl
  | x :: rest, h, i => by
    show (if p x then some i else List.findIdx? p rest (i + 1)) = none
    rw [h x (List.mem_cons_self x rest)]
    simp only [Bool.false_eq_true, if_false, ite_false]
    exact findIdx?_none_of_all p rest
      (fun y hy => h y (List.mem_cons_of_mem x hy)) (i + 1)

/-- The retain-then-mark sequence of `get_connection` leaves every
surviving entry marked in use, so the position scan never finds a free
entry: the pool never hands out a pooled client. -/
theorem get_connection_eq (cfg : PoolConfig) (entries : List PoolEntry)
    (now : Nat) :
    get_connection cfg entries now =
      (((entries.filter fun e => !e.inUse && !(e.is_expired cfg now)).map fun e =>
        if !e.inUse then { e with inUse := true, lastUsed := now } else e),
        false) := by
  unfold get_connection
  have hall : ∀ x ∈ ((entries.filter fun e =>
      !e.inUse && !(e.is_expired cfg now)).map fun e =>
      if !e.inUse then { e with inUse := true, lastUsed := now } else e),
      (!x.inUse) = false := by
    intro x hx
    obtain ⟨y, hy, rfl⟩ := List.mem_map.mp hx
    have hyf : (!y.inUse && !(y.is_expired cfg now)) = true :=
      (List.mem_filter.mp hy).2
    have hyu : y.inUse = false := by
      cases hu : y.inUse <;> simp_all
    rw [hyu]
    rfl
  have hnone : List.findIdx? (fun x => !x.inUse)
      ((entries.filter fun e => !e.inUse && !(e.is_expired cfg now)).map fun e =>
        if !e.inUse then { e with inUse := true, lastUsed := now } else e) 0 =
      none := findIdx?_none_of_all _ _ hall 0
  simp only [hnone]

/-- `get_connection` never grows the stored entry vector. -/
theorem get_connection_length_le (cfg : PoolConfig) (entries : List PoolEntry)
    (now : Nat) :
    (get_connection cfg entries now).1.length ≤ entries.length := by
  rw [get_connection_eq]
  calc ((entries.filter fun e => !e.inUse && !(e.is_expired cfg now)).map fun e =>
      if !e.inUse then { e with inUse := true, lastUsed := now } else e).length
      = (entries.filter fun e => !e.inUse && !(e.is_expired cfg now)).length :=
        List.length_map _ _
    _ ≤ entries.length := List.length_filter_le _ _

/-- The stored entry count stays at or under the per-endpoint limit over
any operation sequence. -/
theorem poolRun_entries_le (cfg : PoolConfig) (ops : List PoolOp)
    (st : PoolState) (h : st.entries.length ≤ cfg.maxConnectionsPerEndpoint) :
    (poolRun cfg ops st).1.entries.length ≤ cfg.maxConnectionsPerEndpoint := by
  induction ops generalizing st with
  | nil => exact h
  | cons op rest ih =>
    cases op with
    | get now =>
      show (poolRun cfg rest (pool_get cfg st now).1).1.entries.length ≤ _
      apply ih
      have hle := get_connection_length_le cfg st.entries now
      unfold pool_get
      split
      · show (get_connection cfg st.entries now).1.length ≤ _
        omega
      split
      · show (get_connection cfg st.entries now).1.length ≤ _
        omega
      · show (get_connection cfg st.entries now).1.length ≤ _
        omega
    | ret now =>
      show (poolRun cfg rest (return_connection cfg st now)).1.entries.length ≤ _
      apply ih
      unfold return_connection
      split
      · exact h
      · show (if st.entries.length < cfg.maxConnectionsPerEndpoint then
          st.entries ++ [PoolEntry.new now] else st.entries).length ≤ _
        split
        · rw [List.length_append]
          simp only [List.length_cons, List.length_nil]
          omega
        · exact h

/-- C1 (amended): for any sequence of get/return operations against one
endpoint starting from an empty pool, the number of POOLED entries never
exceeds `max_connections_per_endpoint` — but checked-out connections are
not counted against the limit, and the retain-then-mark sequence inside
`get_connection` marks every surviving entry in use, so a pooled client is
never handed out at all. -/
theorem pool_capacity_pooled_only (cfg : PoolConfig) (ops : List PoolOp) :
    (poolRun cfg ops emptyPoolState).1.entries.length ≤
      cfg.maxConnectionsPerEndpoint ∧
    ∀ entries now, (get_connection cfg entries now).2 = false :=
  ⟨poolRun_entries_le cfg ops emptyPoolState (Nat.zero_le _),
    fun entries now => by rw [get_connection_eq]⟩

/-- Counterexample to C1 as frozen: with `max_connections_per_endpoint =
2`, three consecutive `get` calls with no return ALL succeed — the third
does not fail with the pool-limit error — and afterwards three clients are
checked out while the pool stores none, so live connections (checked out
plus pooled) reach 3 > 2. -/
theorem pool_capacity_counterexample :
    poolRun
      { maxConnectionsPerEndpoint := 2, idleTimeout := 1000,
        maxLifetime := none }
      [PoolOp.get 0, PoolOp.get 0, PoolOp.get 0] emptyPoolState =
      ({ entries := [], outstanding := 3 }, [true, true, true]) := by
  rfl

end SomeIpRs
